import Mathlib

/-!
# SkillFactory — verification of the wizard state machine and doc generator

A shallow embedding of the SkillFactory TUI (Go sources: the `tui` package —
model/update/view — and the build/deploy/doc-generation file) together with
proofs about the claims on its specification.

Strings are modelled at the character level (`List Char` under Lean `String`);
Go byte indices coincide with character indices on the ASCII data the claims
concern.  External collaborators (the `bubbles` text-input widget, `lipgloss`
styles, the file system, and process invocation) are modelled as small explicit
components or oracles, as noted at each definition.
-/

set_option autoImplicit false

/-! ## Character-list string utilities (Go `strings` package operations) -/

/-- The whitespace characters recognised by Go's `unicode.IsSpace` that occur
in ASCII help text. -/
def isSpaceChar (c : Char) : Bool :=
  c == ' ' || c == '\t' || c == '\n' || c == '\r' || c == '\x0b' || c == '\x0c'

/-- Go `strings.TrimSpace` at the character level. -/
def trimSpace (l : List Char) : List Char :=
  ((l.dropWhile isSpaceChar).reverse.dropWhile isSpaceChar).reverse

theorem dropWhileLenLe {α : Type} (p : α → Bool) (l : List α) :
    (l.dropWhile p).length ≤ l.length :=
  (List.dropWhile_suffix p).length_le

/-- The scanning loop of `fields`: `acc` is the reversed word in progress. -/
def fieldsAux : List Char → List Char → List (List Char)
  | [], acc => if acc = [] then [] else [acc.reverse]
  | c :: rest, acc =>
    if isSpaceChar c then
      if acc = [] then fieldsAux rest [] else acc.reverse :: fieldsAux rest []
    else fieldsAux rest (c :: acc)

/-- Go `strings.Fields`: split around runs of whitespace. -/
def fields (l : List Char) : List (List Char) :=
  fieldsAux l []

/-- Go `strings.Split(s, sep)` for a one-character separator (empty pieces kept,
`Split("", sep) = [""]`). -/
def splitOnChar (sep : Char) : List Char → List (List Char)
  | [] => [[]]
  | c :: rest =>
    if c == sep then [] :: splitOnChar sep rest
    else
      match splitOnChar sep rest with
      | [] => [[c]]
      | w :: ws => (c :: w) :: ws

/-- Index of the first occurrence of `pat` in `l` (Go `strings.Index`;
`none` for Go's `-1`). -/
def firstIdx (pat : List Char) : List Char → Option Nat
  | [] => if pat.isPrefixOf [] then some 0 else none
  | c :: t => if pat.isPrefixOf (c :: t) then some 0 else (firstIdx pat t).map (· + 1)

/-- Go `strings.Contains` at the character level. -/
def containsSub (pat l : List Char) : Bool :=
  (firstIdx pat l).isSome

theorem firstIdx_some_le {pat l : List Char} {i : Nat} (h : firstIdx pat l = some i)
    (hne : pat ≠ []) : i + pat.length ≤ l.length := by
  induction l generalizing i with
  | nil =>
    rw [firstIdx] at h
    by_cases hp : pat.isPrefixOf ([] : List Char)
    · rw [if_pos hp] at h
      have : pat <+: ([] : List Char) := by
        exact List.isPrefixOf_iff_prefix.mp hp
      have := List.IsPrefix.length_le this
      simp at this
      exact absurd this hne
    · rw [if_neg hp] at h
      simp at h
  | cons c t ih =>
    rw [firstIdx] at h
    by_cases hp : pat.isPrefixOf (c :: t)
    · rw [if_pos hp] at h
      have hpre : pat <+: (c :: t) := List.isPrefixOf_iff_prefix.mp hp
      have := List.IsPrefix.length_le hpre
      simp at h
      omega
    · rw [if_neg hp] at h
      simp only [Option.map_eq_some'] at h
      obtain ⟨j, hj, rfl⟩ := h
      have := ih hj
      simp only [List.length_cons]
      omega

/-- Go `strings.Replace(s, old, new, 1)`: replace the first occurrence. -/
def replaceFirstL (l old new : List Char) : List Char :=
  match firstIdx old l with
  | none => l
  | some i => l.take i ++ new ++ l.drop (i + old.length)

/-- The iteration of Go `strings.Replace(s, old, new, -1)`, fuelled by the
input length: each replacement consumes at least one character (callers pass
a non-empty `old`), so `l.length` rounds always suffice. -/
def replaceAllFuel (old new : List Char) : Nat → List Char → List Char
  | 0, l => l
  | fuel + 1, l =>
    match firstIdx old l with
    | none => l
    | some i => l.take i ++ new ++ replaceAllFuel old new fuel (l.drop (i + old.length))

/-- Go `strings.Replace(s, old, new, -1)`: replace all (non-overlapping,
left-to-right) occurrences; `old` is non-empty at every call site. -/
def replaceAllL (old new : List Char) (l : List Char) : List Char :=
  if old = [] then l else replaceAllFuel old new l.length l

/-- Left-justify to width `n` with spaces (Go `fmt.Sprintf("%-<n>s", s)`). -/
def padRight (n : Nat) (l : List Char) : List Char :=
  l ++ List.replicate (n - l.length) ' '

/-! ## Go `path/filepath` (unix): `Clean` and `Join` -/

/-- The backtracking loop of Go `filepath.Clean`'s `..` case: the output
buffer is kept reversed with its width `w` carried alongside (Go's `out.w`);
`c` is the character just excluded from the buffer (Go reads it at
`out.index(out.w)` after `out.w--`). -/
def btGo (dotdot : Nat) : List Char → Nat → Char → List Char × Nat
  | [], w, _ => ([], w)
  | c2 :: rest2, w, c =>
    if dotdot < w && c != '/' then btGo dotdot rest2 (w - 1) c2
    else (c2 :: rest2, w)

/-- One `..` backtrack on the (reversed, width-carrying) output buffer of
`filepath.Clean`. -/
def backtrack (out : List Char) (w dotdot : Nat) : List Char × Nat :=
  match out with
  | [] => ([], w)
  | c :: rest => btGo dotdot rest (w - 1) c

/-- The main loop of Go `filepath.Clean` (unix separators), one character per
step: `out` is the output buffer reversed, `w` its width (Go's `out.w`),
`dotdot` the backtracking limit, and `inSeg` records that the scan is inside
a path element (Go's inner element-copying loop). -/
def cleanLoop (rooted : Bool) : List Char → Bool → List Char → Nat → Nat → List Char
  | [], _, out, _, _ => out
  | c :: rest, inSeg, out, w, dotdot =>
    if inSeg then
      if c == '/' then cleanLoop rooted rest false out w dotdot
      else cleanLoop rooted rest true (c :: out) (w + 1) dotdot
    else if c == '/' then cleanLoop rooted rest false out w dotdot
    else if c == '.' && (rest.isEmpty || rest.head? == some '/') then
      cleanLoop rooted rest false out w dotdot
    else if c == '.' && rest.head? == some '.' &&
        (rest.tail.isEmpty || rest.tail.head? == some '/') then
      match rest with
      | [] => out
      | _ :: rest2 =>
        if dotdot < w then
          match backtrack out w dotdot with
          | (out2, w2) => cleanLoop rooted rest2 false out2 w2 dotdot
        else if !rooted then
          if 0 < w then
            cleanLoop rooted rest2 false ('.' :: '.' :: '/' :: out) (w + 3) (w + 3)
          else
            cleanLoop rooted rest2 false ['.', '.'] 2 2
        else
          cleanLoop rooted rest2 false out w dotdot
    else
      if (rooted && w != 1) || (!rooted && w != 0) then
        cleanLoop rooted rest true (c :: '/' :: out) (w + 2) dotdot
      else
        cleanLoop rooted rest true (c :: out) (w + 1) dotdot

/-- Go `filepath.Clean` for unix paths. -/
def goClean (path : String) : String :=
  if path = "" then "."
  else
    let l := path.toList
    let rooted := l.head? == some '/'
    let out := if rooted then cleanLoop true l false ['/'] 1 1 else cleanLoop false l false [] 0 0
    if out.isEmpty then "." else ⟨out.reverse⟩

/-- Go `filepath.Join`: drop leading empty elements, then `Clean` the
`/`-joined remainder; all-empty input yields `""`. -/
def goJoin (elems : List String) : String :=
  match elems with
  | [] => ""
  | e :: rest => if e != "" then goClean (String.intercalate "/" (e :: rest)) else goJoin rest

/-! ## Data model (`tui` package `Model` and the `skill` manifest types) -/

/-- A manifest variable (`skill.Variable`): name, label, description, required
flag, placeholder, default, and a type tag (`text`/`string`, `secret`, `json`). -/
structure Variable where
  name : String
  label : String
  description : String
  required : Bool
  placeholder : String
  default : String
  «type» : String
deriving DecidableEq, Repr

/-- `skill.BuildConfig`: source entry and desired binary name. -/
structure BuildConfig where
  entry : String
  binary : String
deriving DecidableEq, Repr

/-- `skill.DocsConfig`: documentation template and output file names. -/
structure DocsConfig where
  template : String
  output : String
deriving DecidableEq, Repr

/-- `skill.Manifest`: identity, variables, build and docs configuration, plus
the skill's source path. -/
structure Manifest where
  name : String
  description : String
  skillDescription : String
  version : String
  path : String
  «variables» : List Variable
  build : BuildConfig
  docs : DocsConfig
deriving DecidableEq, Repr

/-- Modelled from the spec: the `skill` package (not under `src/`) exposes
`Manifest.GetSkillDescription`; per the manifest format documentation the
detailed `skill_description` is used for SKILL.md, falling back to the short
`description`. -/
def Manifest.getSkillDescription (s : Manifest) : String :=
  if s.skillDescription != "" then s.skillDescription else s.description

/-- `skill.SkillError`: a skill that failed to load (name plus error text). -/
structure SkillError where
  name : String
  error : String
deriving DecidableEq, Repr

/-- Model of the external `bubbles` text-input widget: the state the wizard
reads and writes (value, placeholder, limits, focus, and echo mode —
`echoPassword = true` is `textinput.EchoPassword`). -/
structure TextInput where
  value : String
  placeholder : String
  charLimit : Nat
  width : Nat
  focused : Bool
  echoPassword : Bool
deriving DecidableEq, Repr

/-- `textinput.New()`. -/
def TextInput.new : TextInput :=
  { value := "", placeholder := "", charLimit := 0, width := 0,
    focused := false, echoPassword := false }

/-- `textinput.Model.Update`, modelled from the external widget: an unfocused
input ignores input; a focused one edits its value (single printable
characters append subject to the char limit, backspace deletes). -/
def TextInput.update (key : String) (t : TextInput) : TextInput :=
  if !t.focused then t
  else if key = "backspace" then { t with value := t.value.dropRight 1 }
  else if key.length = 1 && (t.charLimit == 0 || t.value.length < t.charLimit) then
    { t with value := t.value ++ key }
  else t

/-- The wizard's screens (`tui.View`). -/
inductive View where
  | ViewSkillList
  | ViewConfig
  | ViewDeploy
  | ViewConfirm
  | ViewOverwrite
  | ViewBuilding
  | ViewDone
deriving DecidableEq, Repr

/-- The application state (`tui.Model`). -/
structure Model where
  projectRoot : String
  version : String
  manifests : List Manifest
  skillErrors : List SkillError
  currentView : View
  skillCursor : Nat
  selectedSkill : Option Manifest
  selectedError : Option SkillError
  configInputs : List TextInput
  configLabels : List String
  configFocus : Nat
  deployInputs : List TextInput
  deployLabels : List String
  deployFocus : Nat
  skillsFolder : String
  skillFolderName : String
  configValues : List (String × String)
  statusMsg : String
  errorMsg : String
  building : Bool
  buildOutput : String
  width : Int
  height : Int
  quitting : Bool
deriving DecidableEq, Repr

/-- Lookup in the configuration value map (Go `m.configValues[k]` with
present/absent distinguished). -/
def mapLookup (al : List (String × String)) (k : String) : Option String :=
  (al.find? (fun p => p.1 == k)).map (fun p => p.2)

/-- Update/insert in the configuration value map (Go `m.configValues[k] = v`). -/
def mapInsert (al : List (String × String)) (k v : String) : List (String × String) :=
  match al with
  | [] => [(k, v)]
  | (k', v') :: rest => if k' == k then (k, v) :: rest else (k', v') :: mapInsert rest k v

/-- The messages the wizard reacts to (`tea.KeyMsg` by its string form,
`tea.WindowSizeMsg`, and the two task-completion messages; a task error is
carried as its message string). -/
inductive Msg where
  | key (s : String)
  | windowSize (w h : Int)
  | buildComplete (output : String) (err : Option String)
  | deployComplete (err : Option String)
deriving DecidableEq, Repr

/-- The commands the wizard hands back to the runtime (`tea.Cmd`), as symbolic
tokens: `quit`, the text-input blink, a batch of input updates, and the two
dispatched background tasks. -/
inductive Cmd where
  | none
  | quit
  | blink
  | batch
  | startBuild
  | deploy
deriving DecidableEq, Repr

/-! ## Wizard operations (`tui` package, model/update file)

Runtime panics of the Go code (out-of-range slice index, modulo by zero,
nil-pointer dereference) are modelled as `none`; every `some` result is a
normal return. -/

/-- `Model.getDeployPath`: `filepath.Join(m.skillsFolder, m.skillFolderName)`. -/
def Model.getDeployPath (m : Model) : String :=
  goJoin [m.skillsFolder, m.skillFolderName]

/-- The `Build.Binary`-with-`Name`-fallback computation repeated at each use
site in the source (`skillExists`, `startBuild`, `deploySkill`,
`replacePlaceholders`). -/
def binaryNameOf (s : Manifest) : String :=
  if s.build.binary = "" then s.name else s.build.binary

/-- Blur every input (`for i := range { Blur() }`). -/
def blurAll (l : List TextInput) : List TextInput :=
  l.map (fun t => { t with focused := false })

/-- Focus the input at index `i` (callers guard the index, so an out-of-range
index leaves the list unchanged). -/
def focusAt (l : List TextInput) (i : Nat) : List TextInput :=
  match l.get? i with
  | some t => l.set i { t with focused := true }
  | none => l

/-- One configuration input built by `setupInputsFromManifest`: placeholder
from the variable (default as fallback), password echo for secrets, value
pre-filled from the configuration map when present. -/
def mkConfigInput (cv : List (String × String)) (v : Variable) : TextInput :=
  let ph := if v.placeholder = "" && v.default != "" then v.default else v.placeholder
  { value := (mapLookup cv v.name).getD ""
    placeholder := ph
    charLimit := 200
    width := 50
    focused := false
    echoPassword := v.«type» == "secret" }

/-- `Model.setupInputsFromManifest`: build one input per manifest variable,
then focus the first (when any). -/
def Model.setupInputsFromManifest (m : Model) : Model :=
  match m.selectedSkill with
  | none => m
  | some s =>
    let inputs := blurAll (s.variables.map (mkConfigInput m.configValues))
    let inputs := if 0 < inputs.length then focusAt inputs 0 else inputs
    { m with configInputs := inputs
             configLabels := s.variables.map (fun v => v.label)
             configFocus := 0 }

/-- `Model.setupDeployInputs`: the two deploy-target inputs — skills folder
(pre-filled with a previously saved value) and skill name (pre-filled with the
saved value, else the manifest name). -/
def Model.setupDeployInputs (m : Model) : Model :=
  let skillsFolderInput : TextInput :=
    { value := if m.skillsFolder != "" then m.skillsFolder else ""
      placeholder := "/path/to/.claude/skills/"
      charLimit := 200, width := 50, focused := false, echoPassword := false }
  let skillNameInput : TextInput :=
    { value :=
        if m.skillFolderName != "" then m.skillFolderName
        else match m.selectedSkill with
          | some s => s.name
          | none => ""
      placeholder :=
        match m.selectedSkill with
        | some s => s.name
        | none => ""
      charLimit := 100, width := 50, focused := false, echoPassword := false }
  { m with deployInputs := [{ skillsFolderInput with focused := true }, skillNameInput]
           deployLabels := ["Skills Folder", "Skill Name"]
           deployFocus := 0 }

/-- The loop of `Model.validateConfigInputs`: walk the variables against the
input list; `none` models the out-of-range index panic (`m.configInputs[i]` is
evaluated only when `v.Required`, by Go's short-circuit `&&`), `some (some e)`
a failed validation with error `e`, `some none` success. -/
def validateVarsLoop : List Variable → List TextInput → Option (Option String)
  | [], _ => some none
  | v :: vs, inps =>
    if v.required then
      match inps with
      | [] => none
      | inp :: inps' =>
        if inp.value = "" then some (some (v.label ++ " is required"))
        else validateVarsLoop vs inps'
    else validateVarsLoop vs inps.tail

/-- `Model.validateConfigInputs`: require a value in every `required`
variable's input; on failure records an error naming the variable's label. -/
def Model.validateConfigInputs (m : Model) : Option (Bool × Model) :=
  match m.selectedSkill with
  | none => some (false, { m with errorMsg := "No skill selected" })
  | some s =>
    match validateVarsLoop s.variables m.configInputs with
    | none => none
    | some (some err) => some (false, { m with errorMsg := err })
    | some none => some (true, { m with errorMsg := "" })

/-- The loop of `Model.saveConfigInputs` (`m.configValues[v.Name] =
m.configInputs[i].Value()`); `none` models the index panic. -/
def saveVarsLoop : List Variable → List TextInput → List (String × String) →
    Option (List (String × String))
  | [], _, cv => some cv
  | _ :: _, [], _ => none
  | v :: vs, inp :: inps, cv => saveVarsLoop vs inps (mapInsert cv v.name inp.value)

/-- `Model.saveConfigInputs`: persist every variable's input value into the
configuration map. -/
def Model.saveConfigInputs (m : Model) : Option Model :=
  match m.selectedSkill with
  | none => some m
  | some s =>
    (saveVarsLoop s.variables m.configInputs m.configValues).map
      (fun cv => { m with configValues := cv })

/-- `Model.validateDeployInputs`: both deploy inputs must be non-empty
(`deployInputs[0]`/`[1]` panic when absent). -/
def Model.validateDeployInputs (m : Model) : Option (Bool × Model) :=
  match m.deployInputs.get? 0 with
  | none => none
  | some i0 =>
    if i0.value = "" then some (false, { m with errorMsg := "Skills Folder is required" })
    else
      match m.deployInputs.get? 1 with
      | none => none
      | some i1 =>
        if i1.value = "" then some (false, { m with errorMsg := "Skill Name is required" })
        else some (true, { m with errorMsg := "" })

/-- `Model.saveDeployInputs`. -/
def Model.saveDeployInputs (m : Model) : Option Model :=
  match m.deployInputs.get? 0, m.deployInputs.get? 1 with
  | some i0, some i1 => some { m with skillsFolder := i0.value, skillFolderName := i1.value }
  | _, _ => none

/-- `Model.skillExists`: a deploy conflict exists when `bin/<binary>` under the
deploy path is present in the file system `fs` (the `os.Stat` oracle); `none`
models the nil dereference of an absent selected skill. -/
def Model.skillExists (fs : String → Bool) (m : Model) : Option Bool :=
  let deployPath := m.getDeployPath
  if deployPath = "" then some false
  else
    match m.selectedSkill with
    | none => none
    | some s => some (fs (goJoin [deployPath, "bin", binaryNameOf s]))

/-- The focus-cycling step shared by the `tab`/`down` branches: blur the
focused input, advance focus modulo the input count, focus the new input.
`none` models the index panic on an empty input list (and the `% 0`). -/
def cycleFocusFwd (inputs : List TextInput) (focus : Nat) :
    Option (List TextInput × Nat) :=
  match inputs.get? focus with
  | none => none
  | some t =>
    let inputs := inputs.set focus { t with focused := false }
    if inputs.length = 0 then none
    else
      let nf := (focus + 1) % inputs.length
      match inputs.get? nf with
      | none => none
      | some t2 => some (inputs.set nf { t2 with focused := true }, nf)

/-- The focus-cycling step of the `shift+tab`/`up` branches (`focus--`
wrapping to the last index). -/
def cycleFocusBwd (inputs : List TextInput) (focus : Nat) :
    Option (List TextInput × Nat) :=
  match inputs.get? focus with
  | none => none
  | some t =>
    let inputs := inputs.set focus { t with focused := false }
    if inputs.length = 0 then none
    else
      let nf := if focus = 0 then inputs.length - 1 else focus - 1
      match inputs.get? nf with
      | none => none
      | some t2 => some (inputs.set nf { t2 with focused := true }, nf)

/-- `Model.updateConfigInputs`: forward the key to every configuration input
(only the focused one reacts); the per-input commands are batched. -/
def Model.updateConfigInputs (m : Model) (key : String) : Model × Cmd :=
  ({ m with configInputs := m.configInputs.map (TextInput.update key) }, Cmd.batch)

/-- `Model.updateDeployInputs`. -/
def Model.updateDeployInputs (m : Model) (key : String) : Model × Cmd :=
  ({ m with deployInputs := m.deployInputs.map (TextInput.update key) }, Cmd.batch)

/-- `Model.handleSkillListView`. -/
def Model.handleSkillListView (m : Model) (key : String) : Option (Model × Cmd) :=
  let totalItems := m.manifests.length + m.skillErrors.length
  if key = "q" || key = "esc" then some ({ m with quitting := true }, Cmd.quit)
  else if key = "up" || key = "k" then
    some (if 0 < m.skillCursor then { m with skillCursor := m.skillCursor - 1 } else m, Cmd.none)
  else if key = "down" || key = "j" then
    some (if m.skillCursor < totalItems - 1 then { m with skillCursor := m.skillCursor + 1 }
          else m, Cmd.none)
  else if key = "enter" then
    if m.skillCursor < m.manifests.length then
      match m.manifests.get? m.skillCursor with
      | none => none
      | some man =>
        some ((Model.setupInputsFromManifest
          { m with selectedSkill := some man, selectedError := none,
                   currentView := View.ViewConfig }), Cmd.blink)
    else if m.skillCursor < totalItems then
      match m.skillErrors.get? (m.skillCursor - m.manifests.length) with
      | none => none
      | some se =>
        some ({ m with selectedError := some se, selectedSkill := none,
                       errorMsg := se.error }, Cmd.none)
    else some (m, Cmd.none)
  else some (m, Cmd.none)

/-- `Model.handleConfirmView`. -/
def Model.handleConfirmView (fs : String → Bool) (m : Model) (key : String) :
    Option (Model × Cmd) :=
  if key = "esc" || key = "n" then
    let inputs := blurAll m.deployInputs
    let inputs := if 0 < inputs.length then focusAt inputs 0 else inputs
    some ({ m with currentView := View.ViewDeploy, deployFocus := 0,
                   deployInputs := inputs }, Cmd.blink)
  else if key = "enter" || key = "y" then
    match m.skillExists fs with
    | none => none
    | some true => some ({ m with currentView := View.ViewOverwrite }, Cmd.none)
    | some false =>
      some ({ m with currentView := View.ViewBuilding, building := true,
                     errorMsg := "", statusMsg := "" }, Cmd.startBuild)
  else some (m, Cmd.none)

/-- `Model.handleOverwriteView`. -/
def Model.handleOverwriteView (m : Model) (key : String) : Option (Model × Cmd) :=
  if key = "esc" || key = "n" then some ({ m with currentView := View.ViewConfirm }, Cmd.none)
  else if key = "y" then
    some ({ m with currentView := View.ViewBuilding, building := true,
                   errorMsg := "", statusMsg := "" }, Cmd.startBuild)
  else some (m, Cmd.none)

/-- `Model.handleDoneView`. -/
def Model.handleDoneView (m : Model) (key : String) : Option (Model × Cmd) :=
  if key = "enter" || key = "q" || key = "esc" then
    some ({ m with quitting := true }, Cmd.quit)
  else if key = "r" then
    some ({ m with currentView := View.ViewSkillList, errorMsg := "", statusMsg := "",
                   buildOutput := "" }, Cmd.none)
  else some (m, Cmd.none)

/-- `Model.handleKeyPress`: dispatch on the current view; views without a
handler ignore the key. -/
def Model.handleKeyPress (fs : String → Bool) (m : Model) (key : String) :
    Option (Model × Cmd) :=
  match m.currentView with
  | View.ViewSkillList => m.handleSkillListView key
  | View.ViewConfirm => Model.handleConfirmView fs m key
  | View.ViewOverwrite => m.handleOverwriteView key
  | View.ViewDone => m.handleDoneView key
  | _ => some (m, Cmd.none)

/-- The `ViewConfig` key branch of `Model.Update`. -/
def Model.updateConfigView (m : Model) (key : String) : Option (Model × Cmd) :=
  if key = "esc" then
    some ({ m with currentView := View.ViewSkillList, errorMsg := "" }, Cmd.none)
  else if key = "tab" || key = "down" then
    match cycleFocusFwd m.configInputs m.configFocus with
    | none => none
    | some (inputs, nf) => some ({ m with configInputs := inputs, configFocus := nf }, Cmd.blink)
  else if key = "shift+tab" || key = "up" then
    match cycleFocusBwd m.configInputs m.configFocus with
    | none => none
    | some (inputs, nf) => some ({ m with configInputs := inputs, configFocus := nf }, Cmd.blink)
  else if key = "ctrl+d" || key = "enter" then
    match m.validateConfigInputs with
    | none => none
    | some (false, m1) => some (m1, Cmd.blink)
    | some (true, m1) =>
      match m1.saveConfigInputs with
      | none => none
      | some m2 =>
        some ({ m2.setupDeployInputs with currentView := View.ViewDeploy }, Cmd.blink)
  else some (m.updateConfigInputs key)

/-- The `ViewDeploy` key branch of `Model.Update`. -/
def Model.updateDeployView (m : Model) (key : String) : Option (Model × Cmd) :=
  if key = "esc" then
    let inputs := blurAll m.configInputs
    let inputs := if 0 < inputs.length then focusAt inputs 0 else inputs
    some ({ m with currentView := View.ViewConfig, errorMsg := "", configFocus := 0,
                   configInputs := inputs }, Cmd.blink)
  else if key = "tab" || key = "down" then
    match cycleFocusFwd m.deployInputs m.deployFocus with
    | none => none
    | some (inputs, nf) => some ({ m with deployInputs := inputs, deployFocus := nf }, Cmd.blink)
  else if key = "shift+tab" || key = "up" then
    match cycleFocusBwd m.deployInputs m.deployFocus with
    | none => none
    | some (inputs, nf) => some ({ m with deployInputs := inputs, deployFocus := nf }, Cmd.blink)
  else if key = "ctrl+d" || key = "enter" then
    match m.validateDeployInputs with
    | none => none
    | some (false, m1) => some (m1, Cmd.none)
    | some (true, m1) =>
      match m1.saveDeployInputs with
      | none => none
      | some m2 => some ({ m2 with currentView := View.ViewConfirm }, Cmd.none)
  else some (m.updateDeployInputs key)

/-- `Model.Update`, the wizard's event handler.  `fs` is the file-system
oracle consulted by the confirm step; `none` models a Go runtime panic. -/
def Model.update (fs : String → Bool) (m : Model) (msg : Msg) : Option (Model × Cmd) :=
  match msg with
  | Msg.key key =>
    if key = "ctrl+c" then some ({ m with quitting := true }, Cmd.quit)
    else if m.currentView = View.ViewConfig then m.updateConfigView key
    else if m.currentView = View.ViewDeploy then m.updateDeployView key
    else Model.handleKeyPress fs m key
  | Msg.windowSize w h => some ({ m with width := w, height := h }, Cmd.none)
  | Msg.buildComplete output err =>
    let m1 := { m with building := false, buildOutput := output }
    match err with
    | some e => some ({ m1 with errorMsg := e, currentView := View.ViewDone }, Cmd.none)
    | none => some (m1, Cmd.deploy)
  | Msg.deployComplete err =>
    match err with
    | some e => some ({ m with currentView := View.ViewDone, errorMsg := e }, Cmd.none)
    | none => some ({ m with currentView := View.ViewDone,
                             statusMsg := "Skill deployed successfully!" }, Cmd.none)

/-! ## Help-text introspection (parsers over Cobra help output) -/

/-- Concatenation of a list of strings (the accumulated `strings.Builder`
writes of the Go loops). -/
def concatAll : List String → String
  | [] => ""
  | s :: rest => s ++ concatAll rest

/-- The pattern constants of the parsers. -/
def usageHdr : List Char := "Usage:".toList

def flagsHdr : List Char := "Flags:".toList

def availableHdr : List Char := "Available Commands:".toList

def availableWord : List Char := "Available".toList

def helpFlagPat : List Char := "--help".toList

/-- `parseDescription`: first non-blank line before a `Usage:` line. -/
def parseDescriptionLines : List (List Char) → List Char
  | [] => []
  | line :: rest =>
    let t := trimSpace line
    if t ≠ [] && !usageHdr.isPrefixOf t then t
    else if usageHdr.isPrefixOf t then []
    else parseDescriptionLines rest

def parseDescription (helpOutput : String) : String :=
  ⟨parseDescriptionLines (splitOnChar '\n' helpOutput.toList)⟩

/-- `parseUsage`: the line after a `Usage:` header, with its first
whitespace-delimited token (the program name) stripped; the scan continues on
a malformed candidate line. -/
def parseUsageLines : List (List Char) → List Char
  | [] => []
  | line :: rest =>
    if usageHdr.isPrefixOf (trimSpace line) then
      match rest with
      | [] => parseUsageLines rest
      | next :: _ =>
        let parts := fields (trimSpace next)
        if 1 < parts.length then List.intercalate [' '] (parts.drop 1)
        else parseUsageLines rest
    else parseUsageLines rest

def parseUsage (helpOutput : String) : String :=
  ⟨parseUsageLines (splitOnChar '\n' helpOutput.toList)⟩

/-- The recognised Cobra flag type tokens of `formatFlag`. -/
def commonTypes : List (List Char) :=
  ["string".toList, "int".toList, "int64".toList, "bool".toList, "float64".toList,
   "duration".toList, "stringArray".toList, "intSlice".toList]

/-- Go `strings.TrimSuffix(s, ",")`. -/
def trimCommaSuffix (p : List Char) : List Char :=
  if p.getLast? = some ',' then p.dropLast else p

/-- The flag-name collection loop of `formatFlag`: consume `-`-leading tokens
(and stray commas), accumulating `-t, --title`-style text; returns the
accumulator and the remaining tokens. -/
def collectFlagNames : List (List Char) → List Char → List Char × List (List Char)
  | [], acc => (acc, [])
  | p :: ps, acc =>
    if p.head? = some '-' || p = [','] then
      collectFlagNames ps
        (if p = [','] then acc
         else if acc = [] then trimCommaSuffix p
         else acc ++ (", ".toList) ++ trimCommaSuffix p)
    else (acc, p :: ps)

/-- `formatFlag`: format one Cobra flag line as
`` `-t, --title` (string): description ``. -/
def formatFlag (line : List Char) : List Char :=
  let parts := fields line
  if parts.length < 2 then []
  else
    let (flagPart, rest) := collectFlagNames parts []
    let (typePart, rest) :=
      match rest with
      | [] => ([], ([] : List (List Char)))
      | p :: ps => if commonTypes.contains p then (p, ps) else ([], p :: ps)
    let result := "`".toList ++ flagPart ++ "`".toList
    let result := if typePart ≠ [] then result ++ (" (".toList) ++ typePart ++ [')'] else result
    if rest ≠ [] then result ++ (": ".toList) ++ List.intercalate [' '] rest else result

/-- The line loop of `parseFlags` (`inFlags` is the `inFlagsSection` state):
a `Flags:` line (re)enters the section; inside it, blank lines are skipped,
a `...:` section header ends it, `-`-leading lines are formatted, and the
help flag is dropped. -/
def parseFlagsLines : List (List Char) → Bool → List (List Char)
  | [], _ => []
  | line :: rest, inFlags =>
    let trimmed := trimSpace line
    if flagsHdr.isPrefixOf trimmed then parseFlagsLines rest true
    else if inFlags then
      if trimmed = [] then parseFlagsLines rest true
      else if trimmed.getLast? = some ':' then []
      else if trimmed.head? = some '-' then
        let flag := formatFlag trimmed
        if flag ≠ [] && !containsSub helpFlagPat flag then flag :: parseFlagsLines rest true
        else parseFlagsLines rest true
      else parseFlagsLines rest true
    else parseFlagsLines rest false

def parseFlags (helpOutput : String) : List String :=
  (parseFlagsLines (splitOnChar '\n' helpOutput.toList) false).map (fun l => ⟨l⟩)

/-- The line loop of `parseSubcommands`: entries of the
`Available Commands:` section by their first token, `help` and `completion`
excluded; the section ends at the next `...:` header. -/
def parseSubcommandsLines : List (List Char) → Bool → List (List Char)
  | [], _ => []
  | line :: rest, inSec =>
    let trimmed := trimSpace line
    if availableHdr.isPrefixOf trimmed then parseSubcommandsLines rest true
    else if inSec then
      if trimmed = [] || trimmed.getLast? = some ':' then
        if trimmed.getLast? = some ':' && !availableWord.isPrefixOf trimmed then []
        else parseSubcommandsLines rest true
      else
        match fields trimmed with
        | [] => parseSubcommandsLines rest true
        | cmdName :: _ =>
          if cmdName ≠ "help".toList && cmdName ≠ "completion".toList then
            cmdName :: parseSubcommandsLines rest true
          else parseSubcommandsLines rest true
    else parseSubcommandsLines rest false

def parseSubcommands (helpText : String) : List String :=
  (parseSubcommandsLines (splitOnChar '\n' helpText.toList) false).map (fun l => ⟨l⟩)

/-! ## Command extraction (`extractCommands`, with `runHelp` as an oracle)

`runHelp binaryPath args... --help` is modelled by an oracle
`help : List String → Option String` mapping the subcommand-name arguments to
the combined output, `none` for an invocation failure (non-zero exit or
unreadable output). -/

/-- The generic fallback documentation (`"Run `<path> --help` ..."`). -/
def fallbackMsg (displayPath : String) : String :=
  "Run `" ++ displayPath ++ " --help` to see available commands."

/-- `formatCommand`: a leaf command's documentation section. -/
def formatCommand (displayPath cmdPath helpOutput : String) : String :=
  let description := parseDescription helpOutput
  let usage := parseUsage helpOutput
  let flags := parseFlags helpOutput
  "### " ++ cmdPath ++ "\n\n"
    ++ (if description ≠ "" then description ++ "\n\n" else "")
    ++ (if usage ≠ "" then "**Usage:** `" ++ displayPath ++ " " ++ usage ++ "`\n\n" else "")
    ++ (if flags ≠ [] then
          "**Flags:**\n" ++ concatAll (flags.map (fun f => "- " ++ f ++ "\n")) ++ "\n"
        else "")

/-- One top-level command's contribution to `extractCommands`'s output: a
failed help invocation contributes nothing (`continue`); a command with
second-level subcommands contributes one section per subcommand (failures
again skipped), and a leaf contributes its own section. -/
def commandDoc (help : List String → Option String) (displayPath cmd : String) : String :=
  match help [cmd] with
  | none => ""
  | some cmdOutput =>
    let secondLevel := parseSubcommands cmdOutput
    if secondLevel = [] then formatCommand displayPath cmd cmdOutput
    else
      concatAll (secondLevel.map (fun sub =>
        match help [cmd, sub] with
        | none => ""
        | some subOutput => formatCommand displayPath (cmd ++ " " ++ sub) subOutput))

/-- `extractCommands`: document every discovered leaf command, falling back to
the generic `--help` instruction when the top-level invocation fails, yields
no commands, or every per-command section came out empty. -/
def extractCommands (help : List String → Option String) (displayPath : String) : String :=
  match help [] with
  | none => fallbackMsg displayPath
  | some output =>
    let topLevel := parseSubcommands output
    if topLevel = [] then fallbackMsg displayPath
    else
      let body := concatAll (topLevel.map (commandDoc help displayPath))
      if body = "" then fallbackMsg displayPath else body

/-! ## Documentation and environment-file generation

`readFile : String → Option String` is the file-system read oracle
(`os.ReadFile`); styling (`lipgloss .Render`) adds no text of its own and is
modelled as the identity on strings. -/

/-- `stripFrontmatter`: if the content starts with `---`, cut everything up to
and including the next occurrence of `---`, plus any leading newlines of what
remains; otherwise (or when no second `---` exists) return the content
verbatim. -/
def stripFrontmatter (content : String) : String :=
  if !(("---".toList).isPrefixOf content.toList) then content
  else
    let rest := content.toList.drop 3
    match firstIdx "---".toList rest with
    | none => content
    | some idx => ⟨(rest.drop (idx + 3)).dropWhile (fun c => c == '\n')⟩

/-- `Model.generateFrontmatter`: the generated three-dash metadata header
(name and skill description); `none` models the nil dereference without a
selected skill. -/
def Model.generateFrontmatter (m : Model) : Option String :=
  match m.selectedSkill with
  | none => none
  | some s =>
    some ("---\n" ++ "name: " ++ s.name ++ "\n"
      ++ "description: " ++ s.getSkillDescription ++ "\n" ++ "---\n\n")

/-- `Model.generateProjectIDsTable`. -/
def Model.generateProjectIDsTable (_ : Model) (jsonStr : String) : String :=
  "| ID | Projekt |\n" ++ "|----|---------|"
    ++ "\n\nConfig: `" ++ jsonStr ++ "`"

/-- The placeholder tokens of `replacePlaceholders` (braces spelled via
escapes). -/
def skillPathToken : String := "\x7b\x7bSKILL_PATH\x7d\x7d"

def projectIdsToken : String := "\x7b\x7bPROJECT_IDS_TABLE\x7d\x7d"

def commandsToken : String := "\x7b\x7bCOMMANDS\x7d\x7d"

/-- Go `strings.Replace(s, old, new, -1)` on `String`. -/
def goReplaceAll (s old new : String) : String :=
  ⟨replaceAllL old.toList new.toList s.toList⟩

/-- Go `strings.Replace(s, old, new, 1)` on `String`. -/
def goReplaceFirst (s old new : String) : String :=
  ⟨replaceFirstL s.toList old.toList new.toList⟩

/-- `Model.replacePlaceholders`: substitute the deploy path (everywhere), the
project-IDs table and the introspected commands documentation (first
occurrence each); the extraction runs the freshly built binary (the `help`
oracle) but displays the deployed path. -/
def Model.replacePlaceholders (help : List String → Option String) (m : Model)
    (content : String) : Option String :=
  match m.selectedSkill with
  | none => none
  | some s =>
    let binaryName := binaryNameOf s
    let content := goReplaceAll content skillPathToken m.getDeployPath
    let content :=
      match mapLookup m.configValues "PROJECT_IDS" with
      | some projectIDs =>
        if projectIDs ≠ "" then
          goReplaceFirst content projectIdsToken (m.generateProjectIDsTable projectIDs)
        else goReplaceFirst content projectIdsToken "No project IDs configured."
      | none => goReplaceFirst content projectIdsToken "No project IDs configured."
    let deployedBinaryPath := goJoin [m.getDeployPath, "bin", binaryName]
    let commands := extractCommands help deployedBinaryPath
    some (goReplaceFirst content commandsToken commands)

/-- The pure rendering pipeline of `generateSkillDocs` for a template that
exists: strip any pre-existing frontmatter, substitute placeholders, prepend
the generated frontmatter. -/
def renderDocContent (help : List String → Option String) (m : Model)
    (templateData : String) : Option String :=
  match Model.replacePlaceholders help m (stripFrontmatter templateData) with
  | none => none
  | some replaced =>
    match m.generateFrontmatter with
    | none => none
    | some fm => some (fm ++ replaced)

/-- The value `renderConfirm` displays for one variable: a secret longer than
8 characters is cut to its first 8 characters plus an ellipsis; everything
else is shown as stored (a missing key reads as Go's zero value `""`). -/
def confirmDisplayValue (v : Variable) (value : String) : String :=
  if v.«type» == "secret" && 8 < value.length then value.take 8 ++ "..." else value

/-- `Model.renderConfirm` (styles are identity; layout text as in the
source). -/
def Model.renderConfirm (m : Model) : String :=
  let skillPart :=
    match m.selectedSkill with
    | none => ""
    | some s =>
      "  Skill:         " ++ s.name ++ "\n\n"
        ++ (if 0 < s.variables.length then
              "  Environment:\n"
                ++ concatAll (s.variables.map (fun v =>
                    let value := (mapLookup m.configValues v.name).getD ""
                    "    " ++ (⟨padRight 12 (v.label ++ ":").toList⟩ : String) ++ " "
                      ++ confirmDisplayValue v value ++ "\n"))
                ++ "\n"
            else "")
  "Step 3: Confirm" ++ "\n\n" ++ skillPart
    ++ "  Deploy:\n"
    ++ "    Skills Folder: " ++ m.skillsFolder ++ "\n"
    ++ "    Skill Name:    " ++ m.skillFolderName ++ "\n"
    ++ "    Target:        " ++ m.getDeployPath ++ "\n\n"
    ++ "  Build and deploy this skill?\n"
    ++ "  [Y] Yes  [N] Back"

/-! ## Concrete fixtures used by witnesses and counterexamples -/

/-- A base model state (fresh session, nothing selected). -/
def baseModel : Model :=
  { projectRoot := "/proj", version := "v1", manifests := [], skillErrors := [],
    currentView := View.ViewSkillList, skillCursor := 0, selectedSkill := none,
    selectedError := none, configInputs := [], configLabels := [], configFocus := 0,
    deployInputs := [], deployLabels := [], deployFocus := 0,
    skillsFolder := "", skillFolderName := "", configValues := [],
    statusMsg := "", errorMsg := "", building := false, buildOutput := "",
    width := 0, height := 0, quitting := false }

/-- A required secret variable. -/
def tokenVar : Variable :=
  { name := "API_TOKEN", label := "API Token", description := "token",
    required := true, placeholder := "", default := "", «type» := "secret" }

/-- An optional text variable. -/
def urlVar : Variable :=
  { name := "API_URL", label := "API URL", description := "url",
    required := false, placeholder := "https://x", default := "", «type» := "string" }

/-- A manifest with one required secret and one optional text variable. -/
def demoManifest : Manifest :=
  { name := "demo", description := "demo skill", skillDescription := "demo detail",
    version := "1.0.0", path := "/proj/skills/demo",
    «variables» := [tokenVar, urlVar],
    build := { entry := ".", binary := "" },
    docs := { template := "SKILL.template.md", output := "SKILL.md" } }

/-- A manifest with no variables at all. -/
def emptyManifest : Manifest :=
  { name := "empty", description := "no variables", skillDescription := "",
    version := "1.0.0", path := "/proj/skills/empty",
    «variables» := [],
    build := { entry := ".", binary := "" },
    docs := { template := "SKILL.template.md", output := "SKILL.md" } }

/-- A file system in which nothing exists. -/
def emptyFs : String → Bool := fun _ => false

/-! ## Claim C3 -/

/-- The wizard state reached by selecting `emptyManifest` (zero variables)
and entering the configuration view. -/
def c3State : Model :=
  Model.setupInputsFromManifest
    { baseModel with manifests := [emptyManifest], selectedSkill := some emptyManifest,
                     currentView := View.ViewConfig }

/-- Claim C3: the claim states that the event handler is total for every
reachable state — explicitly including a manifest with zero variables under
the focus-cycling keys in `ConfigureVariables`.  The code violates this: with
an empty `configInputs` slice, `m.configInputs[m.configFocus]` (and the
subsequent `% len(m.configInputs)`) panic, modelled here as `none`, on every
focus-cycling key.  The spec's totality invariant is the stated intent, so
this is a bug in the code. -/
theorem c3_focusCycle_panics_on_zero_variables :
    c3State.configInputs = [] ∧
    Model.update emptyFs c3State (Msg.key "tab") = none ∧
    Model.update emptyFs c3State (Msg.key "down") = none ∧
    Model.update emptyFs c3State (Msg.key "shift+tab") = none ∧
    Model.update emptyFs c3State (Msg.key "up") = none := by
  refine ⟨by decide, by decide, by decide, by decide, by decide⟩

/-! ## Claim C6 -/

/-- The synthetic leaf help text of the claim: a `Usage:` header, the usage
line `  prog sub [flags]`, and one `Flags:` section line. -/
def c6Help : String :=
  "Usage:\n  prog sub [flags]\n\nFlags:\n  -t, --title string   Task title (required)\n"

/-- Claim C6: on the synthetic leaf help text, introspection finds no
subcommands (a leaf), extracts the usage with the program-name token
stripped, and formats the single flag from the name pair `-t, --title`, the
type token `string`, and the description `Task title (required)`. -/
theorem c6_leaf_introspection :
    parseSubcommands c6Help = [] ∧
    parseUsage c6Help = "sub [flags]" ∧
    parseFlags c6Help =
      ["`" ++ "-t, --title" ++ "` (" ++ "string" ++ "): " ++ "Task title (required)"] := by
  refine ⟨by decide, by decide, by decide⟩

/-! ## Claim C8 -/

def c8HelpOracle : List String → Option String := fun _ => none

theorem blurAll_length (l : List TextInput) : (blurAll l).length = l.length := by
  simp [blurAll]

theorem focusAt_length (l : List TextInput) (i : Nat) :
    (focusAt l i).length = l.length := by
  unfold focusAt
  cases l.get? i <;> simp

/-- `focusAt` changes only the `focused` field at one index. -/
theorem focusAt_get?_echoPassword (l : List TextInput) (i j : Nat) :
    ((focusAt l i).get? j).map (fun t => t.echoPassword) =
      (l.get? j).map (fun t => t.echoPassword) := by
  unfold focusAt
  cases hq : l.get? i with
  | none => rfl
  | some t =>
    have hi : i < l.length := (List.get?_eq_some.mp hq).1
    rw [List.get?_set_of_lt' _ _ hi]
    by_cases hij : i = j
    · subst hij
      rw [if_pos rfl, hq]
      rfl
    · rw [if_neg hij]

/-- `focusAt` preserves every `value`. -/
theorem focusAt_get?_value (l : List TextInput) (i j : Nat) :
    ((focusAt l i).get? j).map (fun t => t.value) = (l.get? j).map (fun t => t.value) := by
  unfold focusAt
  cases hq : l.get? i with
  | none => rfl
  | some t =>
    have hi : i < l.length := (List.get?_eq_some.mp hq).1
    rw [List.get?_set_of_lt' _ _ hi]
    by_cases hij : i = j
    · subst hij
      rw [if_pos rfl, hq]
      rfl
    · rw [if_neg hij]

theorem focusAt_get_echoPassword (l : List TextInput) (i j : Nat)
    (hj : j < l.length) (hj2 : j < (focusAt l i).length) :
    ((focusAt l i).get ⟨j, hj2⟩).echoPassword = (l.get ⟨j, hj⟩).echoPassword := by
  have h := focusAt_get?_echoPassword l i j
  rw [List.get?_eq_get hj, List.get?_eq_get hj2] at h
  simpa using h

theorem focusAt_get_value (l : List TextInput) (i j : Nat)
    (hj : j < l.length) (hj2 : j < (focusAt l i).length) :
    ((focusAt l i).get ⟨j, hj2⟩).value = (l.get ⟨j, hj⟩).value := by
  have h := focusAt_get?_value l i j
  rw [List.get?_eq_get hj, List.get?_eq_get hj2] at h
  simpa using h

/-- After `setupInputsFromManifest` the input list pairs up with the selected
manifest's variables: same length, per-index `echoPassword` exactly for
secret-typed variables, and per-index value pre-filled from the configuration
map. -/
theorem setupInputs_spec (m : Model) (s : Manifest) (hsel : m.selectedSkill = some s) :
    (Model.setupInputsFromManifest m).configInputs.length = s.variables.length ∧
    ∀ i : Nat,
      ((Model.setupInputsFromManifest m).configInputs.get? i).map (fun t => t.echoPassword) =
        (s.variables.get? i).map (fun v => v.«type» == "secret") ∧
      ((Model.setupInputsFromManifest m).configInputs.get? i).map (fun t => t.value) =
        (s.variables.get? i).map (fun v => (mapLookup m.configValues v.name).getD "") := by
  have hinputs : (Model.setupInputsFromManifest m).configInputs =
      (if 0 < (blurAll (s.variables.map (mkConfigInput m.configValues))).length
       then focusAt (blurAll (s.variables.map (mkConfigInput m.configValues))) 0
       else blurAll (s.variables.map (mkConfigInput m.configValues))) := by
    simp [Model.setupInputsFromManifest, hsel]
  constructor
  · rw [hinputs]
    by_cases h0 : 0 < (blurAll (s.variables.map (mkConfigInput m.configValues))).length
    · rw [if_pos h0, focusAt_length, blurAll_length, List.length_map]
    · rw [if_neg h0, blurAll_length, List.length_map]
  · intro i
    rw [hinputs]
    by_cases h0 : 0 < (blurAll (s.variables.map (mkConfigInput m.configValues))).length
    · rw [if_pos h0]
      refine ⟨?_, ?_⟩
      · rw [focusAt_get?_echoPassword]
        simp only [blurAll, List.get?_eq_getElem?, List.getElem?_map, Option.map_map]
        cases s.variables[i]? <;> rfl
      · rw [focusAt_get?_value]
        simp only [blurAll, List.get?_eq_getElem?, List.getElem?_map, Option.map_map]
        cases s.variables[i]? <;> rfl
    · rw [if_neg h0]
      refine ⟨?_, ?_⟩ <;>
        (simp only [blurAll, List.get?_eq_getElem?, List.getElem?_map, Option.map_map]
         cases s.variables[i]? <;> rfl)

/-- The wizard state of the C9 counterexample: `demo` selected with an 8-byte
secret value configured. -/
def c9State : Model :=
  { baseModel with
      selectedSkill := some demoManifest,
      skillsFolder := "/sf", skillFolderName := "demo",
      configValues := [("API_TOKEN", "abcdefgh"), ("API_URL", "https://api")] }

/-- Claim C9 counterexample: the claim says a secret-typed variable's full
configured value is never echoed in plaintext in any rendered view; but
`renderConfirm` truncates only values longer than 8 bytes, so the 8-character
secret `abcdefgh` appears verbatim in the confirmation view. -/
theorem c9_secret_echo_cex :
    tokenVar.«type» = "secret" ∧
    mapLookup c9State.configValues "API_TOKEN" = some "abcdefgh" ∧
    containsSub "abcdefgh".toList (Model.renderConfirm c9State).toList = true := by
  refine ⟨rfl, by decide, by decide⟩

/-- Claim C9 (amended): the input field for a secret-typed variable is set to
password echo, and the confirmation view truncates a secret value to its
first 8 characters plus an ellipsis whenever the value is longer than 8
characters; a secret of at most 8 characters is displayed in full. -/
theorem c9_secret_display_amended :
    (∀ (v : Variable) (value : String), v.«type» = "secret" → 8 < value.length →
        confirmDisplayValue v value = value.take 8 ++ "...") ∧
    (∀ (m : Model) (s : Manifest), m.selectedSkill = some s →
      ∀ i (hi : i < s.variables.length),
        (s.variables.get ⟨i, hi⟩).«type» = "secret" →
        ∃ hlen : i < (Model.setupInputsFromManifest m).configInputs.length,
          ((Model.setupInputsFromManifest m).configInputs.get ⟨i, hlen⟩).echoPassword = true) := by
  constructor
  · intro v value hv hlen
    simp [confirmDisplayValue, hv, hlen]
  · intro m s hsel i hi hsec
    obtain ⟨hL, hspec⟩ := setupInputs_spec m s hsel
    have hlen : i < (Model.setupInputsFromManifest m).configInputs.length := by omega
    refine ⟨hlen, ?_⟩
    have h := (hspec i).1
    rw [List.get?_eq_get hlen, List.get?_eq_get hi] at h
    simp only [Option.map_some', Option.some.injEq] at h
    rw [h, hsec]
    rfl

/-- Witness for the amended C9 theorem: a 9-character secret is truncated to
8 characters plus `...`, and the secret variable's input in the configure
view is in password-echo mode. -/
theorem c9_secret_display_amended_witness :
    confirmDisplayValue tokenVar "abcdefghi" = "abcdefgh" ++ "..." ∧
    ∃ hlen : 0 < (Model.setupInputsFromManifest c9State).configInputs.length,
      ((Model.setupInputsFromManifest c9State).configInputs.get ⟨0, hlen⟩).echoPassword = true := by
  constructor
  · exact c9_secret_display_amended.1 tokenVar "abcdefghi" rfl (by decide)
  · exact c9_secret_display_amended.2 c9State demoManifest rfl 0 (by decide) rfl

/-! ## Claim C5 -/

theorem strToList_append (a b : String) : (a ++ b).toList = a.toList ++ b.toList := by
  cases a
  cases b
  rfl

theorem strMk_toList (s : String) : (⟨s.toList⟩ : String) = s := rfl

/-- When `pat` occurs nowhere strictly before the position `pre.length`, its
first occurrence in `pre ++ pat ++ post` is exactly there. -/
theorem firstIdx_at (pat pre post : List Char) (hne : pat ≠ [])
    (h : ∀ i, i < pre.length →
      pat.isPrefixOf ((pre ++ pat ++ post).drop i) = false) :
    firstIdx pat (pre ++ pat ++ post) = some pre.length := by
  induction pre with
  | nil =>
    have hp : pat.isPrefixOf (pat ++ post) = true :=
      List.isPrefixOf_iff_prefix.mpr (List.prefix_append _ _)
    cases hpp : pat ++ post with
    | nil =>
      have : pat = [] := by
        cases pat with
        | nil => rfl
        | cons a b => simp at hpp
      exact absurd this hne
    | cons c t =>
      simp only [List.nil_append] at *
      rw [hpp, firstIdx, ← hpp, hp]
      simp
  | cons c pre' ih =>
    have h0 : pat.isPrefixOf (c :: (pre' ++ pat ++ post)) = false := by
      simpa using h 0 (by simp)
    have ih' := ih (fun i hi => by simpa using h (i + 1) (by simpa using hi))
    show firstIdx pat (c :: (pre' ++ pat ++ post)) = some (pre'.length + 1)
    rw [firstIdx, h0]
    simp only [Bool.false_eq_true, if_false, ih']
    rfl

/-- The header-splitting equation of `stripFrontmatter`: a content of the
shape `---\n<inner>\n---\n<body>`, whose prefix up to the closing delimiter
contains no earlier `---` occurrence, strips to `body` with `body`'s own
leading newlines removed. -/
theorem stripFrontmatter_header (inner body : String)
    (hocc : ∀ i, i < ('\n' :: inner.toList ++ ['\n']).length →
      ("---".toList).isPrefixOf
        ((('\n' :: inner.toList ++ ['\n']) ++ "---".toList ++
          ('\n' :: body.toList)).drop i) = false) :
    stripFrontmatter ("---\n" ++ inner ++ "\n---\n" ++ body) =
      ⟨body.toList.dropWhile (fun c => c == '\n')⟩ := by
  have htl : ("---\n" ++ inner ++ "\n---\n" ++ body).toList =
      ['-', '-', '-', '\n'] ++ inner.toList ++ ['\n', '-', '-', '-', '\n'] ++ body.toList := by
    simp [strToList_append]
  have hpre : ("---".toList).isPrefixOf ("---\n" ++ inner ++ "\n---\n" ++ body).toList = true := by
    rw [htl]
    rfl
  rw [stripFrontmatter, hpre]
  simp only [Bool.not_true, Bool.false_eq_true, if_false]
  have hrest : ("---\n" ++ inner ++ "\n---\n" ++ body).toList.drop 3 =
      ('\n' :: inner.toList ++ ['\n']) ++ "---".toList ++ ('\n' :: body.toList) := by
    rw [htl]
    simp
  rw [hrest, firstIdx_at _ _ _ (by decide) hocc]
  have hdrop : (('\n' :: inner.toList ++ ['\n']) ++ "---".toList ++ ('\n' :: body.toList)).drop
      (('\n' :: inner.toList ++ ['\n']).length + 3) = '\n' :: body.toList := by
    have hsplit : ('\n' :: inner.toList ++ ['\n']) ++ "---".toList ++ ('\n' :: body.toList) =
        (('\n' :: inner.toList ++ ['\n']) ++ "---".toList) ++ ('\n' :: body.toList) := by
      simp [List.append_assoc]
    rw [hsplit]
    exact List.drop_left' (by simp)
  dsimp only
  rw [hdrop]
  simp only [List.dropWhile]
  norm_num

/-- `stripFrontmatter` leaves content verbatim when it does not start with
`---`. -/
theorem stripFrontmatter_verbatim (s : String)
    (hs : ("---".toList).isPrefixOf s.toList = false) :
    stripFrontmatter s = s := by
  rw [stripFrontmatter, hs]
  rfl

/-- Claim C5 counterexample: the claim says stripping removes exactly the
header and leaves the remainder unchanged, and that a template without a
three-dash-delimited header is returned verbatim.  Both fail on the code: for
`"---\nt\n---\n\nbody"` the remainder after the closing `---` line is
`"\nbody"` but the code also eats the blank line; and `"---abc---xyz"` has no
header line at all yet is cut down to `"xyz"`. -/
theorem c5_strip_cex :
    (stripFrontmatter "---\nt\n---\n\nbody" = "body" ∧
      stripFrontmatter "---\nt\n---\n\nbody" ≠ "\nbody") ∧
    (stripFrontmatter "---abc---xyz" = "xyz" ∧
      stripFrontmatter "---abc---xyz" ≠ "---abc---xyz") := by
  refine ⟨⟨by decide, by decide⟩, ⟨by decide, by decide⟩⟩

/-- Claim C5 (amended): for a template `---\n<inner>\n---\n<body>` whose text
before the closing delimiter contains no earlier occurrence of `---`, the
code removes the header and any newlines immediately following it — so the
remainder is returned unchanged exactly when it does not itself begin with a
newline; and a template that does not begin with the three characters `---`
is returned verbatim. -/
theorem c5_strip_amended (inner body s : String)
    (hocc : ∀ i, i < ('\n' :: inner.toList ++ ['\n']).length →
      ("---".toList).isPrefixOf
        ((('\n' :: inner.toList ++ ['\n']) ++ "---".toList ++
          ('\n' :: body.toList)).drop i) = false)
    (hnl : body.toList.dropWhile (fun c => c == '\n') = body.toList)
    (hs : ("---".toList).isPrefixOf s.toList = false) :
    stripFrontmatter ("---\n" ++ inner ++ "\n---\n" ++ body) = body ∧
    stripFrontmatter s = s := by
  constructor
  · rw [stripFrontmatter_header inner body hocc, hnl, strMk_toList]
  · exact stripFrontmatter_verbatim s hs

/-- Witness for the amended C5 theorem on a concrete header template and a
concrete header-free template. -/
theorem c5_strip_amended_witness :
    stripFrontmatter ("---\n" ++ "title: x" ++ "\n---\n" ++ "Hello\nWorld") = "Hello\nWorld" ∧
    stripFrontmatter "plain text, no header" = "plain text, no header" :=
  c5_strip_amended "title: x" "Hello\nWorld" "plain text, no header"
    (by decide) (by decide) (by decide)

/-! ## Claim C4 -/

theorem strEq_ofToList {a b : String} (h : a.toList = b.toList) : a = b := by
  cases a
  cases b
  exact congrArg String.mk (by simpa [String.toList] using h)

/-- The wizard state used by the C4 rendering scenarios. -/
def c4State : Model :=
  { baseModel with
      selectedSkill := some demoManifest,
      skillsFolder := "/sf", skillFolderName := "demo" }

/-- Claim C4 counterexample: rendering is not idempotent.  For the template
`"\nhello"` the first rendering produces the generated header followed by
`"\nhello"`, but rendering that output again also strips the body's leading
newline (`TrimLeft` after the header), so the second output differs from the
first. -/
theorem c4_render_cex :
    renderDocContent c8HelpOracle c4State "\nhello" =
      some "---\nname: demo\ndescription: demo detail\n---\n\n\nhello" ∧
    (renderDocContent c8HelpOracle c4State "\nhello").bind
        (renderDocContent c8HelpOracle c4State) =
      some "---\nname: demo\ndescription: demo detail\n---\n\nhello" ∧
    (renderDocContent c8HelpOracle c4State "\nhello").bind
        (renderDocContent c8HelpOracle c4State) ≠
      renderDocContent c8HelpOracle c4State "\nhello" := by
  refine ⟨by decide, by decide, by decide⟩

/-- The generated frontmatter, regrouped into the
`---\n<inner>\n---\n` ++ `\n` shape that `stripFrontmatter` sees. -/
theorem generateFrontmatter_eq (m : Model) (s : Manifest) (hsel : m.selectedSkill = some s) :
    Model.generateFrontmatter m =
      some ("---\n" ++ ("name: " ++ s.name ++ "\ndescription: " ++ s.getSkillDescription)
        ++ "\n---\n" ++ "\n") := by
  rw [Model.generateFrontmatter, hsel]
  dsimp only
  congr 1
  apply strEq_ofToList
  simp only [strToList_append, List.append_assoc,
    show ("---\n" : String).toList = ['-', '-', '-', '\n'] from rfl,
    show ("name: " : String).toList = ['n', 'a', 'm', 'e', ':', ' '] from rfl,
    show ("\n" : String).toList = ['\n'] from rfl,
    show ("description: " : String).toList =
      ['d', 'e', 's', 'c', 'r', 'i', 'p', 't', 'i', 'o', 'n', ':', ' '] from rfl,
    show ("---\n\n" : String).toList = ['-', '-', '-', '\n', '\n'] from rfl,
    show ("\ndescription: " : String).toList =
      ['\n', 'd', 'e', 's', 'c', 'r', 'i', 'p', 't', 'i', 'o', 'n', ':', ' '] from rfl,
    show ("\n---\n" : String).toList = ['\n', '-', '-', '-', '\n'] from rfl,
    List.cons_append, List.nil_append]

/-- Claim C4 (amended): re-rendering the generated document as its own
template is byte-identical provided the substituted body does not begin with a
newline, the body is a fixed point of placeholder substitution (no remaining
placeholder occurrences), and the manifest's name and description place no
earlier `---` occurrence before the header's closing delimiter. -/
theorem c4_render_amended (help : List String → Option String) (m : Model) (s : Manifest)
    (t body : String)
    (hsel : m.selectedSkill = some s)
    (hbody : Model.replacePlaceholders help m (stripFrontmatter t) = some body)
    (hnl : body.toList.dropWhile (fun c => c == '\n') = body.toList)
    (hocc : ∀ i, i < ('\n' :: ("name: " ++ s.name ++ "\ndescription: "
        ++ s.getSkillDescription).toList ++ ['\n']).length →
      ("---".toList).isPrefixOf
        ((('\n' :: ("name: " ++ s.name ++ "\ndescription: "
            ++ s.getSkillDescription).toList ++ ['\n']) ++ "---".toList ++
          ('\n' :: ("\n" ++ body).toList)).drop i) = false)
    (hfix : Model.replacePlaceholders help m body = some body) :
    (renderDocContent help m t).bind (renderDocContent help m) =
      renderDocContent help m t := by
  have hfm := generateFrontmatter_eq m s hsel
  have h1 : renderDocContent help m t =
      some (("---\n" ++ ("name: " ++ s.name ++ "\ndescription: " ++ s.getSkillDescription)
        ++ "\n---\n" ++ "\n") ++ body) := by
    simp [renderDocContent, hbody, hfm]
  have hshape : ("---\n" ++ ("name: " ++ s.name ++ "\ndescription: " ++ s.getSkillDescription)
        ++ "\n---\n" ++ "\n") ++ body =
      "---\n" ++ ("name: " ++ s.name ++ "\ndescription: " ++ s.getSkillDescription)
        ++ "\n---\n" ++ ("\n" ++ body) := by
    apply strEq_ofToList
    simp [strToList_append, List.append_assoc]
  have hstrip : stripFrontmatter (("---\n" ++ ("name: " ++ s.name ++ "\ndescription: "
        ++ s.getSkillDescription) ++ "\n---\n" ++ "\n") ++ body) = body := by
    rw [hshape, stripFrontmatter_header _ _ hocc]
    have he : ("\n" ++ body).toList = '\n' :: body.toList := by
      rw [strToList_append]
      rfl
    rw [he]
    have h2 : List.dropWhile (fun c => c == '\n') ('\n' :: body.toList) =
        List.dropWhile (fun c => c == '\n') body.toList := by
      simp [List.dropWhile_cons]
    rw [h2, hnl, strMk_toList]
  rw [h1]
  simp only [Option.some_bind]
  simp only [renderDocContent, hstrip, hfix, hfm]

/-- Witness for the amended C4 theorem: a plain template with no placeholders
and no leading newline renders idempotently. -/
theorem c4_render_amended_witness :
    (renderDocContent c8HelpOracle c4State "Hello").bind (renderDocContent c8HelpOracle c4State) =
      renderDocContent c8HelpOracle c4State "Hello" :=
  c4_render_amended c8HelpOracle c4State demoManifest "Hello" "Hello"
    (by decide) (by decide) (by decide) (by decide) (by decide)

/-! ## Claim C7 -/

/-- `extractCommands` with one top-level command's whole subtree omitted:
identical to `extractCommands` except that `c`'s contribution is empty. -/
def extractCommandsOmitting (help : List String → Option String) (displayPath c : String) :
    String :=
  match help [] with
  | none => fallbackMsg displayPath
  | some output =>
    let topLevel := parseSubcommands output
    if topLevel = [] then fallbackMsg displayPath
    else
      let body := concatAll (topLevel.map (fun cmd =>
        if cmd = c then "" else commandDoc help displayPath cmd))
      if body = "" then fallbackMsg displayPath else body

/-- Claim C7: a failed top-level help invocation, or one that yields no
command names, produces the generic fallback `--help` instruction; and an
invocation failure for an individual command `c` (all help queries starting
with `c` failing) omits exactly `c`'s subtree, leaving every other command's
documentation unchanged — introspection never propagates an error. -/
theorem c7_introspection_failures (help help2 : List String → Option String) (dp c : String)
    (h0 : help2 [] = help [])
    (hagree : ∀ args : List String, args.head? ≠ some c → help2 args = help args)
    (hfail : ∀ args : List String, args.head? = some c → help2 args = none) :
    (help [] = none → extractCommands help dp = fallbackMsg dp) ∧
    (∀ out, help [] = some out → parseSubcommands out = [] →
      extractCommands help dp = fallbackMsg dp) ∧
    extractCommands help2 dp = extractCommandsOmitting help dp c := by
  refine ⟨?_, ?_, ?_⟩
  · intro h
    simp [extractCommands, h]
  · intro out h hp
    simp [extractCommands, h, hp]
  · rw [extractCommands, extractCommandsOmitting, h0]
    cases hq : help [] with
    | none => rfl
    | some output =>
      dsimp only
      have hmap : (parseSubcommands output).map (commandDoc help2 dp) =
          (parseSubcommands output).map (fun cmd =>
            if cmd = c then "" else commandDoc help dp cmd) := by
        apply List.map_congr_left
        intro cmd _
        by_cases hc : cmd = c
        · subst hc
          rw [commandDoc, hfail [cmd] rfl]
          simp
        · rw [commandDoc, commandDoc, hagree [cmd] (by simp [hc])]
          simp only [if_neg hc]
          cases hr : help [cmd] with
          | none => rfl
          | some cmdOutput =>
            dsimp only
            by_cases hsec : parseSubcommands cmdOutput = []
            · simp [hsec]
            · simp only [hsec, if_neg]
              refine congrArg concatAll ?_
              apply List.map_congr_left
              intro sub _
              rw [hagree [cmd, sub] (by simp [hc])]
      rw [hmap]

/-- The oracles of the C7 witness: a binary with top-level commands `foo` and
`bar`, where every query about `bar` fails. -/
def c7Help : List String → Option String :=
  fun args =>
    if args = [] then
      some "Usage:\n  prog [command]\n\nAvailable Commands:\n  foo   does foo\n  bar   does bar\n  help  Help\n"
    else if args = ["foo"] then
      some "does foo\n\nUsage:\n  prog foo [flags]\n\nFlags:\n  -n, --num int   how many\n"
    else if args = ["bar"] then
      some "does bar\n\nUsage:\n  prog bar [flags]\n"
    else none

def c7Help2 : List String → Option String :=
  fun args => if args.head? = some "bar" then none else c7Help args

/-- Witness for the C7 theorem at the concrete oracles. -/
theorem c7_introspection_failures_witness :
    ((c7Help [] = none → extractCommands c7Help "/sk/bin/prog" = fallbackMsg "/sk/bin/prog") ∧
      (∀ out, c7Help [] = some out → parseSubcommands out = [] →
        extractCommands c7Help "/sk/bin/prog" = fallbackMsg "/sk/bin/prog") ∧
      extractCommands c7Help2 "/sk/bin/prog" =
        extractCommandsOmitting c7Help "/sk/bin/prog" "bar") ∧
    extractCommandsOmitting c7Help "/sk/bin/prog" "bar" =
      "### foo\n\ndoes foo\n\n**Usage:** `/sk/bin/prog foo [flags]`\n\n**Flags:**\n- `-n, --num` (int): how many\n\n" := by
  constructor
  · exact c7_introspection_failures c7Help c7Help2 "/sk/bin/prog" "bar"
      (by simp [c7Help2, c7Help])
      (fun args h => by simp [c7Help2, h])
      (fun args h => by simp [c7Help2, h])
  · decide

/-! ## Claim C2 -/

theorem strMk_ne_empty {l : List Char} (h : l ≠ []) : (⟨l⟩ : String) ≠ "" := by
  intro he
  exact h (congrArg String.toList he)

theorem ifEmpty_ne (out : List Char) :
    (if out.isEmpty then "." else (⟨out.reverse⟩ : String)) ≠ "" := by
  split
  · decide
  · next h =>
    apply strMk_ne_empty
    intro hre
    apply h
    have : out = [] := by
      have := congrArg List.reverse hre
      simpa using this
    simp [this]

/-- `filepath.Clean` never returns the empty string. -/
theorem goClean_ne_empty (p : String) : goClean p ≠ "" := by
  rw [goClean]
  split
  · decide
  · exact ifEmpty_ne _

/-- `filepath.Join` with a non-empty first element is non-empty. -/
theorem goJoin_ne_empty (e : String) (rest : List String) (h : e ≠ "") :
    goJoin (e :: rest) ≠ "" := by
  have hstep : goJoin (e :: rest) = goClean (String.intercalate "/" (e :: rest)) := by
    rw [goJoin]
    simp [h]
  rw [hstep]
  exact goClean_ne_empty _

/-- Claim C2: the deploy path is the `filepath.Join` of the skills-folder and
skill-name values, and affirming in `Confirm` moves to `OverwriteWarning`
exactly when a file exists at `bin/<binary-name>` under that path (the binary
name falling back to the manifest name); otherwise the wizard moves to
`Building` and dispatches the build task. -/
theorem c2_confirm_overwrite (fs : String → Bool) (m : Model) (s : Manifest) (key : String)
    (hview : m.currentView = View.ViewConfirm)
    (hsel : m.selectedSkill = some s)
    (hsf : m.skillsFolder ≠ "")
    (hkey : key = "enter" ∨ key = "y") :
    Model.getDeployPath m = goJoin [m.skillsFolder, m.skillFolderName] ∧
    ∃ m2 cmd, Model.update fs m (Msg.key key) = some (m2, cmd) ∧
      (m2.currentView = View.ViewOverwrite ↔
        fs (goJoin [Model.getDeployPath m, "bin", binaryNameOf s]) = true) ∧
      (fs (goJoin [Model.getDeployPath m, "bin", binaryNameOf s]) = true →
        m2 = { m with currentView := View.ViewOverwrite } ∧ cmd = Cmd.none) ∧
      (fs (goJoin [Model.getDeployPath m, "bin", binaryNameOf s]) = false →
        m2 = { m with currentView := View.ViewBuilding, building := true,
                      errorMsg := "", statusMsg := "" } ∧ cmd = Cmd.startBuild) := by
  refine ⟨rfl, ?_⟩
  have hdp : Model.getDeployPath m ≠ "" := goJoin_ne_empty _ _ hsf
  have hex : Model.skillExists fs m =
      some (fs (goJoin [Model.getDeployPath m, "bin", binaryNameOf s])) := by
    rw [Model.skillExists]
    simp [hdp, hsel]
  rcases hkey with rfl | rfl <;>
    cases hfs : fs (goJoin [Model.getDeployPath m, "bin", binaryNameOf s]) <;>
      [skip; skip; skip; skip] <;>
    · rw [Model.update]
      rw [if_neg (by decide)]
      rw [if_neg (by simp [hview]), if_neg (by simp [hview])]
      rw [Model.handleKeyPress, hview]
      dsimp only
      rw [Model.handleConfirmView]
      rw [if_neg (by simp)]
      rw [if_pos (by simp)]
      rw [hex, hfs]
      dsimp only
      refine ⟨_, _, rfl, ?_, ?_, ?_⟩ <;> simp [hfs]
  
/-- Witness for the C2 theorem: confirm state with an existing binary at the
target (file system contains exactly that path). -/
def c2State : Model :=
  { baseModel with
      currentView := View.ViewConfirm,
      selectedSkill := some demoManifest,
      skillsFolder := "/home/u/.claude/skills", skillFolderName := "demo" }

def c2Fs : String → Bool := fun p => p = "/home/u/.claude/skills/demo/bin/demo"

theorem c2_confirm_overwrite_witness :
    Model.getDeployPath c2State = goJoin [c2State.skillsFolder, c2State.skillFolderName] ∧
    ∃ m2 cmd, Model.update c2Fs c2State (Msg.key "y") = some (m2, cmd) ∧
      (m2.currentView = View.ViewOverwrite ↔
        c2Fs (goJoin [Model.getDeployPath c2State, "bin", binaryNameOf demoManifest]) = true) ∧
      (c2Fs (goJoin [Model.getDeployPath c2State, "bin", binaryNameOf demoManifest]) = true →
        m2 = { c2State with currentView := View.ViewOverwrite } ∧ cmd = Cmd.none) ∧
      (c2Fs (goJoin [Model.getDeployPath c2State, "bin", binaryNameOf demoManifest]) = false →
        m2 = { c2State with currentView := View.ViewBuilding, building := true,
                            errorMsg := "", statusMsg := "" } ∧ cmd = Cmd.startBuild) :=
  c2_confirm_overwrite c2Fs c2State demoManifest "y" rfl rfl (by decide) (Or.inr rfl)

/-! ## Claim C1 -/

theorem mapLookup_cons (k0 v0 : String) (rest : List (String × String)) (k : String) :
    mapLookup ((k0, v0) :: rest) k = if k0 = k then some v0 else mapLookup rest k := by
  by_cases h : k0 = k
  · rw [if_pos h]
    simp only [mapLookup]
    rw [List.find?_cons_of_pos _ (by simpa using h)]
    rfl
  · rw [if_neg h]
    simp only [mapLookup]
    rw [List.find?_cons_of_neg _ (by simpa using h)]

theorem mapLookup_insert_self (cv : List (String × String)) (k v : String) :
    mapLookup (mapInsert cv k v) k = some v := by
  induction cv with
  | nil => simp [mapInsert, mapLookup_cons]
  | cons p rest ih =>
    obtain ⟨k', v'⟩ := p
    simp only [mapInsert]
    by_cases h : k' = k
    · rw [if_pos (by simpa using h), mapLookup_cons, if_pos rfl]
    · rw [if_neg (by simpa using h), mapLookup_cons, if_neg h]
      exact ih

theorem mapLookup_insert_other (cv : List (String × String)) (k v k' : String)
    (h : k' ≠ k) : mapLookup (mapInsert cv k v) k' = mapLookup cv k' := by
  induction cv with
  | nil =>
    simp only [mapInsert]
    rw [mapLookup_cons, if_neg (fun he => h he.symm)]
  | cons p rest ih =>
    obtain ⟨k0, v0⟩ := p
    by_cases h0 : k0 = k
    · simp only [mapInsert]
      rw [if_pos (by simpa using h0), mapLookup_cons, mapLookup_cons]
      rw [if_neg (fun he => h he.symm), if_neg (fun he => h (by rw [← he]; exact h0))]
    · simp only [mapInsert]
      rw [if_neg (by simpa using h0), mapLookup_cons, mapLookup_cons]
      by_cases hk : k0 = k'
      · rw [if_pos hk, if_pos hk]
      · rw [if_neg hk, if_neg hk]
        exact ih

/-- The validation loop never panics and decides rejection exactly at a
required variable with an empty input, reporting that variable's label. -/
theorem validateVarsLoop_spec (vs : List Variable) :
    ∀ inps : List TextInput, vs.length ≤ inps.length →
    (validateVarsLoop vs inps = some none ∧
      ∀ i (h1 : i < vs.length) (h2 : i < inps.length),
        ¬((vs.get ⟨i, h1⟩).required = true ∧ (inps.get ⟨i, h2⟩).value = "")) ∨
    (∃ err, validateVarsLoop vs inps = some (some err) ∧
      ∃ (i : Nat) (h1 : i < vs.length) (h2 : i < inps.length),
        (vs.get ⟨i, h1⟩).required = true ∧ (inps.get ⟨i, h2⟩).value = "" ∧
        err = (vs.get ⟨i, h1⟩).label ++ " is required") := by
  induction vs with
  | nil =>
    intro inps _
    left
    refine ⟨rfl, ?_⟩
    intro i h1
    simp at h1
  | cons v vs' ih =>
    intro inps hlen
    cases inps with
    | nil => simp at hlen
    | cons inp inps' =>
      have hlen' : vs'.length ≤ inps'.length := by simpa using hlen
      by_cases hreq : v.required = true
      · by_cases hval : inp.value = ""
        · right
          refine ⟨v.label ++ " is required", ?_, 0, by simp, by simp, by simpa using hreq,
            by simpa using hval, rfl⟩
          simp [validateVarsLoop, hreq, hval]
        · have hrec : validateVarsLoop (v :: vs') (inp :: inps') = validateVarsLoop vs' inps' := by
            simp [validateVarsLoop, hreq, hval]
          rcases ih inps' hlen' with ⟨hv, hall⟩ | ⟨err, hv, i, h1, h2, e1, e2, e3⟩
          · left
            refine ⟨by rw [hrec, hv], ?_⟩
            intro i h1 h2
            cases i with
            | zero =>
              intro ⟨_, hcon⟩
              exact hval hcon
            | succ j =>
              intro hcon
              exact hall j (by simpa using h1) (by simpa using h2) hcon
          · right
            exact ⟨err, by rw [hrec, hv], i + 1, by simpa using h1, by simpa using h2,
              e1, e2, e3⟩
      · have hrec : validateVarsLoop (v :: vs') (inp :: inps') = validateVarsLoop vs' inps' := by
          simp [validateVarsLoop, hreq]
        rcases ih inps' hlen' with ⟨hv, hall⟩ | ⟨err, hv, i, h1, h2, e1, e2, e3⟩
        · left
          refine ⟨by rw [hrec, hv], ?_⟩
          intro i h1 h2
          cases i with
          | zero =>
            intro ⟨hcon, _⟩
            exact hreq hcon
          | succ j =>
            intro hcon
            exact hall j (by simpa using h1) (by simpa using h2) hcon
        · right
          exact ⟨err, by rw [hrec, hv], i + 1, by simpa using h1, by simpa using h2,
            e1, e2, e3⟩

/-- The save loop never panics when the inputs cover the variables. -/
theorem saveVarsLoop_some (vs : List Variable) :
    ∀ (inps : List TextInput) (cv : List (String × String)), vs.length ≤ inps.length →
    ∃ cv2, saveVarsLoop vs inps cv = some cv2 := by
  induction vs with
  | nil => intro inps cv _; exact ⟨cv, rfl⟩
  | cons v vs' ih =>
    intro inps cv hlen
    cases inps with
    | nil => simp at hlen
    | cons inp inps' =>
      exact ih inps' (mapInsert cv v.name inp.value) (by simpa using hlen)

/-- Keys not named by any saved variable keep their previous binding. -/
theorem saveVarsLoop_lookup_other (vs : List Variable) :
    ∀ (inps : List TextInput) (cv cv2 : List (String × String)) (k : String),
      saveVarsLoop vs inps cv = some cv2 →
      k ∉ vs.map (fun v => v.name) →
      mapLookup cv2 k = mapLookup cv k := by
  induction vs with
  | nil =>
    intro inps cv cv2 k hsave _
    cases hsave
    rfl
  | cons v vs' ih =>
    intro inps cv cv2 k hsave hk
    cases inps with
    | nil => simp [saveVarsLoop] at hsave
    | cons inp inps' =>
      simp only [saveVarsLoop] at hsave
      have hk1 : k ≠ v.name := by
        intro he
        exact hk (by simp [he])
      have hk2 : k ∉ vs'.map (fun v => v.name) := by
        intro he
        exact hk (by simp [he])
      rw [ih inps' _ cv2 k hsave hk2, mapLookup_insert_other _ _ _ _ hk1]

/-- With pairwise-distinct variable names, the save loop persists every
variable's input value under that variable's name. -/
theorem saveVarsLoop_lookup (vs : List Variable) :
    ∀ (inps : List TextInput) (cv cv2 : List (String × String)),
      saveVarsLoop vs inps cv = some cv2 →
      (vs.map (fun v => v.name)).Nodup →
      ∀ i (h1 : i < vs.length) (h2 : i < inps.length),
        mapLookup cv2 (vs.get ⟨i, h1⟩).name = some ((inps.get ⟨i, h2⟩).value) := by
  induction vs with
  | nil =>
    intro inps cv cv2 _ _ i h1
    simp at h1
  | cons v vs' ih =>
    intro inps cv cv2 hsave hnd i h1 h2
    cases inps with
    | nil => simp [saveVarsLoop] at hsave
    | cons inp inps' =>
      simp only [saveVarsLoop] at hsave
      have hcons := List.nodup_cons.mp
        (show (v.name :: vs'.map (fun v => v.name)).Nodup by simpa using hnd)
      have hnd' : (vs'.map (fun v => v.name)).Nodup := hcons.2
      cases i with
      | zero =>
        have hnotin : v.name ∉ vs'.map (fun v => v.name) := hcons.1
        rw [show ((v :: vs').get ⟨0, h1⟩) = v from rfl,
          show ((inp :: inps').get ⟨0, h2⟩) = inp from rfl]
        rw [saveVarsLoop_lookup_other vs' inps' _ cv2 v.name hsave hnotin]
        exact mapLookup_insert_self cv v.name inp.value
      | succ j =>
        exact ih inps' _ cv2 hsave hnd' j (by simpa using h1) (by simpa using h2)

/-- Claim C1: with a selected manifest and the configuration inputs set up
for it, the advance key in `ConfigureVariables` is rejected exactly when some
required variable's input is empty; on rejection the wizard stays in the
configuration view with an error naming that variable's label and an
untouched configuration map, and on acceptance it moves to the deploy-target
view with every variable's value persisted in the configuration map (variable
names being pairwise distinct). -/
theorem c1_configure_advance (fs : String → Bool) (m : Model) (s : Manifest) (key : String)
    (hview : m.currentView = View.ViewConfig)
    (hsel : m.selectedSkill = some s)
    (hlen : m.configInputs.length = s.variables.length)
    (hkey : key = "enter" ∨ key = "ctrl+d") :
    ∃ m2 cmd, Model.update fs m (Msg.key key) = some (m2, cmd) ∧
      (m2.currentView = View.ViewConfig ↔
        ∃ (i : Nat) (h1 : i < s.variables.length) (h2 : i < m.configInputs.length),
          (s.variables.get ⟨i, h1⟩).required = true ∧
          (m.configInputs.get ⟨i, h2⟩).value = "") ∧
      (m2.currentView ≠ View.ViewConfig → m2.currentView = View.ViewDeploy) ∧
      (m2.currentView = View.ViewConfig →
        m2.configValues = m.configValues ∧
        ∃ (i : Nat) (h1 : i < s.variables.length) (h2 : i < m.configInputs.length),
          (s.variables.get ⟨i, h1⟩).required = true ∧
          (m.configInputs.get ⟨i, h2⟩).value = "" ∧
          m2.errorMsg = (s.variables.get ⟨i, h1⟩).label ++ " is required") ∧
      (m2.currentView = View.ViewDeploy →
        (s.variables.map (fun v => v.name)).Nodup →
        ∀ (i : Nat) (h1 : i < s.variables.length) (h2 : i < m.configInputs.length),
          mapLookup m2.configValues (s.variables.get ⟨i, h1⟩).name =
            some ((m.configInputs.get ⟨i, h2⟩).value)) := by
  have hupd : Model.update fs m (Msg.key key) = Model.updateConfigView m key := by
    rw [Model.update]
    rw [if_neg (by rcases hkey with rfl | rfl <;> decide), if_pos hview]
  have hcfg : Model.updateConfigView m key =
      (match m.validateConfigInputs with
       | none => none
       | some (false, m1) => some (m1, Cmd.blink)
       | some (true, m1) =>
         match m1.saveConfigInputs with
         | none => none
         | some m2 =>
           some ({ m2.setupDeployInputs with currentView := View.ViewDeploy }, Cmd.blink)) := by
    rw [Model.updateConfigView]
    rcases hkey with rfl | rfl <;>
      rw [if_neg (by decide), if_neg (by decide), if_neg (by decide), if_pos (by decide)]
  rcases validateVarsLoop_spec s.variables m.configInputs (le_of_eq hlen.symm)
    with ⟨hv, hall⟩ | ⟨err, hv, i, h1, h2, hreq, hval, herr⟩
  · -- acceptance
    have hvc : m.validateConfigInputs = some (true, { m with errorMsg := "" }) := by
      rw [Model.validateConfigInputs, hsel]
      dsimp only
      rw [hv]
    obtain ⟨cv2, hsv⟩ := saveVarsLoop_some s.variables m.configInputs m.configValues
      (le_of_eq hlen.symm)
    have hsc : Model.saveConfigInputs { m with errorMsg := "" } =
        some { m with errorMsg := "", configValues := cv2 } := by
      rw [Model.saveConfigInputs]
      dsimp only
      rw [hsel]
      dsimp only
      rw [hsv]
      rfl
    refine ⟨{ Model.setupDeployInputs { m with errorMsg := "", configValues := cv2 } with
        currentView := View.ViewDeploy }, Cmd.blink, ?_, ?_, ?_, ?_, ?_⟩
    · rw [hupd, hcfg, hvc]
      dsimp only
      rw [hsc]
    · refine iff_of_false (by simp [Model.setupDeployInputs]) ?_
      rintro ⟨i, h1, h2, hreq, hval⟩
      exact hall i h1 h2 ⟨hreq, hval⟩
    · intro _
      rfl
    · intro h
      simp [Model.setupDeployInputs] at h
    · intro _ hnd i h1 h2
      have : ({ Model.setupDeployInputs { m with errorMsg := "", configValues := cv2 } with
          currentView := View.ViewDeploy } : Model).configValues = cv2 := rfl
      rw [this]
      exact saveVarsLoop_lookup s.variables m.configInputs m.configValues cv2 hsv hnd i h1 h2
  · -- rejection
    have hvc : m.validateConfigInputs = some (false, { m with errorMsg := err }) := by
      rw [Model.validateConfigInputs, hsel]
      dsimp only
      rw [hv]
    refine ⟨{ m with errorMsg := err }, Cmd.blink, ?_, ?_, ?_, ?_, ?_⟩
    · rw [hupd, hcfg, hvc]
    · exact iff_of_true hview ⟨i, h1, h2, hreq, hval⟩
    · intro hne
      exact absurd hview hne
    · intro _
      exact ⟨rfl, i, h1, h2, hreq, hval, herr⟩
    · intro hdep
      exact absurd (hview.symm.trans hdep) (by decide)

/-- The wizard state of the C1 witness: `demo` selected, configuration inputs
set up, the required secret left empty. -/
def c1State : Model :=
  Model.setupInputsFromManifest
    { baseModel with manifests := [demoManifest], selectedSkill := some demoManifest,
                     currentView := View.ViewConfig }

/-- Witness for the C1 theorem at `c1State` (required secret empty, so the
advance is rejected with the secret's label in the error). -/
theorem c1_configure_advance_witness :
    ∃ m2 cmd, Model.update emptyFs c1State (Msg.key "enter") = some (m2, cmd) ∧
      (m2.currentView = View.ViewConfig ↔
        ∃ (i : Nat) (h1 : i < demoManifest.variables.length)
          (h2 : i < c1State.configInputs.length),
          (demoManifest.variables.get ⟨i, h1⟩).required = true ∧
          (c1State.configInputs.get ⟨i, h2⟩).value = "") ∧
      (m2.currentView ≠ View.ViewConfig → m2.currentView = View.ViewDeploy) ∧
      (m2.currentView = View.ViewConfig →
        m2.configValues = c1State.configValues ∧
        ∃ (i : Nat) (h1 : i < demoManifest.variables.length)
          (h2 : i < c1State.configInputs.length),
          (demoManifest.variables.get ⟨i, h1⟩).required = true ∧
          (c1State.configInputs.get ⟨i, h2⟩).value = "" ∧
          m2.errorMsg = (demoManifest.variables.get ⟨i, h1⟩).label ++ " is required") ∧
      (m2.currentView = View.ViewDeploy →
        (demoManifest.variables.map (fun v => v.name)).Nodup →
        ∀ (i : Nat) (h1 : i < demoManifest.variables.length)
          (h2 : i < c1State.configInputs.length),
          mapLookup m2.configValues (demoManifest.variables.get ⟨i, h1⟩).name =
            some ((c1State.configInputs.get ⟨i, h2⟩).value)) :=
  c1_configure_advance emptyFs c1State demoManifest "enter"
    (by decide) (by decide) (by decide) (Or.inl rfl)

/-! ## Claim C10 -/

theorem mapInsert_preserves_isSome (cv : List (String × String)) (k v k' : String)
    (h : (mapLookup cv k').isSome) : (mapLookup (mapInsert cv k v) k').isSome := by
  by_cases he : k' = k
  · subst he
    rw [mapLookup_insert_self]
    rfl
  · rw [mapLookup_insert_other _ _ _ _ he]
    exact h

theorem saveVarsLoop_preserves (vs : List Variable) :
    ∀ (inps : List TextInput) (cv cv2 : List (String × String)) (k : String),
      saveVarsLoop vs inps cv = some cv2 →
      (mapLookup cv k).isSome → (mapLookup cv2 k).isSome := by
  induction vs with
  | nil =>
    intro inps cv cv2 k h hk
    cases h
    exact hk
  | cons v vs' ih =>
    intro inps cv cv2 k h hk
    cases inps with
    | nil => simp [saveVarsLoop] at h
    | cons inp inps' =>
      simp only [saveVarsLoop] at h
      exact ih inps' _ cv2 k h (mapInsert_preserves_isSome cv v.name inp.value k hk)

theorem validateConfigInputs_shape (m : Model) (b : Bool) (m1 : Model)
    (h : m.validateConfigInputs = some (b, m1)) : ∃ e, m1 = { m with errorMsg := e } := by
  rw [Model.validateConfigInputs] at h
  split at h
  · cases h
    exact ⟨_, rfl⟩
  · split at h
    · exact absurd h (by simp)
    · cases h
      exact ⟨_, rfl⟩
    · cases h
      exact ⟨_, rfl⟩

theorem setupInputsFromManifest_configValues (m : Model) :
    (Model.setupInputsFromManifest m).configValues = m.configValues := by
  rw [Model.setupInputsFromManifest]
  split <;> rfl

theorem saveConfigInputs_preserves (m m3 : Model) (k : String)
    (h : m.saveConfigInputs = some m3)
    (hk : (mapLookup m.configValues k).isSome) : (mapLookup m3.configValues k).isSome := by
  rw [Model.saveConfigInputs] at h
  split at h
  · cases h
    exact hk
  · next s _ =>
    cases hsv : saveVarsLoop s.variables m.configInputs m.configValues with
    | none => rw [hsv] at h; exact absurd h (by simp)
    | some cv2 =>
      rw [hsv] at h
      simp only [Option.map_some', Option.some.injEq] at h
      rw [← h]
      exact saveVarsLoop_preserves s.variables m.configInputs m.configValues cv2 k hsv hk

theorem saveDeployInputs_configValues (m m3 : Model) (h : m.saveDeployInputs = some m3) :
    m3.configValues = m.configValues := by
  rw [Model.saveDeployInputs] at h
  split at h
  · cases h
    rfl
  · exact absurd h (by simp)

theorem validateDeployInputs_shape (m : Model) (b : Bool) (m1 : Model)
    (h : m.validateDeployInputs = some (b, m1)) : ∃ e, m1 = { m with errorMsg := e } := by
  rw [Model.validateDeployInputs] at h
  cases h0 : m.deployInputs.get? 0 with
  | none => rw [h0] at h; exact absurd h (by simp)
  | some i0 =>
    rw [h0] at h
    dsimp only at h
    split at h
    · simp only [Option.some.injEq, Prod.mk.injEq] at h
      exact ⟨_, h.2.symm⟩
    · cases h1 : m.deployInputs.get? 1 with
      | none => rw [h1] at h; exact absurd h (by simp)
      | some i1 =>
        rw [h1] at h
        dsimp only at h
        split at h
        · simp only [Option.some.injEq, Prod.mk.injEq] at h
          exact ⟨_, h.2.symm⟩
        · simp only [Option.some.injEq, Prod.mk.injEq] at h
          exact ⟨_, h.2.symm⟩

theorem updateConfigView_preserves (m : Model) (key : String) (m2 : Model) (cmd : Cmd)
    (h : Model.updateConfigView m key = some (m2, cmd)) (k : String)
    (hk : (mapLookup m.configValues k).isSome) : (mapLookup m2.configValues k).isSome := by
  rw [Model.updateConfigView] at h
  split at h
  · cases h
    exact hk
  · split at h
    · cases hc : cycleFocusFwd m.configInputs m.configFocus with
      | none => rw [hc] at h; exact absurd h (by simp)
      | some p =>
        obtain ⟨inputs, nf⟩ := p
        rw [hc] at h
        simp only [Option.some.injEq, Prod.mk.injEq] at h
        rw [← h.1]
        exact hk
    · split at h
      · cases hc : cycleFocusBwd m.configInputs m.configFocus with
        | none => rw [hc] at h; exact absurd h (by simp)
        | some p =>
          obtain ⟨inputs, nf⟩ := p
          rw [hc] at h
          simp only [Option.some.injEq, Prod.mk.injEq] at h
          rw [← h.1]
          exact hk
      · split at h
        · cases hval : m.validateConfigInputs with
          | none => rw [hval] at h; exact absurd h (by simp)
          | some p =>
            obtain ⟨b, m1⟩ := p
            rw [hval] at h
            cases b
            · dsimp only at h
              simp only [Option.some.injEq, Prod.mk.injEq] at h
              obtain ⟨e, hme⟩ := validateConfigInputs_shape m false m1 hval
              rw [← h.1, hme]
              exact hk
            · dsimp only at h
              cases hs : m1.saveConfigInputs with
              | none => rw [hs] at h; exact absurd h (by simp)
              | some m3 =>
                rw [hs] at h
                dsimp only at h
                simp only [Option.some.injEq, Prod.mk.injEq] at h
                rw [← h.1]
                obtain ⟨e, hme⟩ := validateConfigInputs_shape m true m1 hval
                have h3 := saveConfigInputs_preserves m1 m3 k hs (by rw [hme]; exact hk)
                simpa [Model.setupDeployInputs] using h3
        · simp only [Model.updateConfigInputs, Option.some.injEq, Prod.mk.injEq] at h
          rw [← h.1]
          exact hk

theorem updateDeployView_preserves (m : Model) (key : String) (m2 : Model) (cmd : Cmd)
    (h : Model.updateDeployView m key = some (m2, cmd)) (k : String)
    (hk : (mapLookup m.configValues k).isSome) : (mapLookup m2.configValues k).isSome := by
  rw [Model.updateDeployView] at h
  split at h
  · cases h
    exact hk
  · split at h
    · cases hc : cycleFocusFwd m.deployInputs m.deployFocus with
      | none => rw [hc] at h; exact absurd h (by simp)
      | some p =>
        obtain ⟨inputs, nf⟩ := p
        rw [hc] at h
        simp only [Option.some.injEq, Prod.mk.injEq] at h
        rw [← h.1]
        exact hk
    · split at h
      · cases hc : cycleFocusBwd m.deployInputs m.deployFocus with
        | none => rw [hc] at h; exact absurd h (by simp)
        | some p =>
          obtain ⟨inputs, nf⟩ := p
          rw [hc] at h
          simp only [Option.some.injEq, Prod.mk.injEq] at h
          rw [← h.1]
          exact hk
      · split at h
        · cases hval : m.validateDeployInputs with
          | none => rw [hval] at h; exact absurd h (by simp)
          | some p =>
            obtain ⟨b, m1⟩ := p
            rw [hval] at h
            cases b
            · dsimp only at h
              simp only [Option.some.injEq, Prod.mk.injEq] at h
              obtain ⟨e, hme⟩ := validateDeployInputs_shape m false m1 hval
              rw [← h.1, hme]
              exact hk
            · dsimp only at h
              cases hs : m1.saveDeployInputs with
              | none => rw [hs] at h; exact absurd h (by simp)
              | some m3 =>
                rw [hs] at h
                dsimp only at h
                simp only [Option.some.injEq, Prod.mk.injEq] at h
                rw [← h.1]
                obtain ⟨e, hme⟩ := validateDeployInputs_shape m true m1 hval
                have hcv := saveDeployInputs_configValues m1 m3 hs
                show (mapLookup m3.configValues k).isSome
                rw [hcv, hme]
                exact hk
        · simp only [Model.updateDeployInputs, Option.some.injEq, Prod.mk.injEq] at h
          rw [← h.1]
          exact hk

theorem handleKeyPress_preserves (fs : String → Bool) (m : Model) (key : String)
    (m2 : Model) (cmd : Cmd)
    (h : Model.handleKeyPress fs m key = some (m2, cmd)) (k : String)
    (hk : (mapLookup m.configValues k).isSome) : (mapLookup m2.configValues k).isSome := by
  rw [Model.handleKeyPress] at h
  split at h
  · -- skill list
    rw [Model.handleSkillListView] at h
    split at h
    · cases h
      exact hk
    · split at h
      · simp only [Option.some.injEq, Prod.mk.injEq] at h
        rw [← h.1]
        split <;> exact hk
      · split at h
        · simp only [Option.some.injEq, Prod.mk.injEq] at h
          rw [← h.1]
          split <;> exact hk
        · split at h
          · split at h
            · cases hg : m.manifests.get? m.skillCursor with
              | none => rw [hg] at h; exact absurd h (by simp)
              | some man =>
                rw [hg] at h
                dsimp only at h
                simp only [Option.some.injEq, Prod.mk.injEq] at h
                rw [← h.1, setupInputsFromManifest_configValues]
                exact hk
            · split at h
              · cases hg : m.skillErrors.get? (m.skillCursor - m.manifests.length) with
                | none => rw [hg] at h; exact absurd h (by simp)
                | some se =>
                  rw [hg] at h
                  dsimp only at h
                  simp only [Option.some.injEq, Prod.mk.injEq] at h
                  rw [← h.1]
                  exact hk
              · cases h
                exact hk
          · cases h
            exact hk
  · -- confirm
    rw [Model.handleConfirmView] at h
    split at h
    · cases h
      exact hk
    · split at h
      · cases hex : m.skillExists fs with
        | none => rw [hex] at h; exact absurd h (by simp)
        | some b =>
          rw [hex] at h
          cases b <;>
            (dsimp only at h
             simp only [Option.some.injEq, Prod.mk.injEq] at h
             rw [← h.1]
             exact hk)
      · cases h
        exact hk
  · -- overwrite
    rw [Model.handleOverwriteView] at h
    split at h
    · cases h
      exact hk
    · split at h
      · cases h
        exact hk
      · cases h
        exact hk
  · -- done
    rw [Model.handleDoneView] at h
    split at h
    · cases h
      exact hk
    · split at h
      · cases h
        exact hk
      · cases h
        exact hk
  · cases h
    exact hk

/-- Claim C10: the configuration value map is keyed by variable name and is
global to the session — no transition of the wizard (restart from Done
included) removes a binding — and on selecting any manifest, every variable
whose name is bound in the map gets its input pre-filled with the bound
value. -/
theorem c10_configValues_global :
    (∀ (fs : String → Bool) (m : Model) (msg : Msg) (m2 : Model) (cmd : Cmd),
      Model.update fs m msg = some (m2, cmd) →
      ∀ k, (mapLookup m.configValues k).isSome → (mapLookup m2.configValues k).isSome) ∧
    (∀ (fs : String → Bool) (m : Model) (man : Manifest) (m2 : Model) (cmd : Cmd),
      m.currentView = View.ViewSkillList →
      m.manifests.get? m.skillCursor = some man →
      Model.update fs m (Msg.key "enter") = some (m2, cmd) →
      ∀ (i : Nat) (h1 : i < man.variables.length) (val : String),
        mapLookup m.configValues (man.variables.get ⟨i, h1⟩).name = some val →
        ∃ h2 : i < m2.configInputs.length, (m2.configInputs.get ⟨i, h2⟩).value = val) := by
  constructor
  · intro fs m msg m2 cmd h k hk
    cases msg with
    | key s =>
      rw [Model.update] at h
      split at h
      · cases h
        exact hk
      · split at h
        · exact updateConfigView_preserves m s m2 cmd h k hk
        · split at h
          · exact updateDeployView_preserves m s m2 cmd h k hk
          · exact handleKeyPress_preserves fs m s m2 cmd h k hk
    | windowSize w hh =>
      rw [Model.update] at h
      cases h
      exact hk
    | buildComplete out err =>
      rw [Model.update.eq_def] at h
      dsimp only at h
      cases err <;>
        (dsimp only at h
         cases h
         exact hk)
    | deployComplete err =>
      rw [Model.update.eq_def] at h
      dsimp only at h
      cases err <;>
        (dsimp only at h
         cases h
         exact hk)
  · intro fs m man m2 cmd hview hget h i h1 val hval
    rw [Model.update] at h
    rw [if_neg (by decide), if_neg (by simp [hview]), if_neg (by simp [hview])] at h
    rw [Model.handleKeyPress, hview] at h
    dsimp only at h
    rw [Model.handleSkillListView] at h
    rw [if_neg (by decide), if_neg (by decide), if_neg (by decide), if_pos rfl] at h
    have hcur : m.skillCursor < m.manifests.length := (List.get?_eq_some.mp hget).1
    rw [if_pos hcur, hget] at h
    dsimp only at h
    simp only [Option.some.injEq, Prod.mk.injEq] at h
    obtain ⟨hm, hcmd⟩ := h
    subst hm
    obtain ⟨hL, hspec⟩ := setupInputs_spec
      { m with
        selectedSkill := some man
        selectedError := none
        currentView := View.ViewConfig } man rfl
    have h2 : i < (Model.setupInputsFromManifest
        { m with
          selectedSkill := some man
          selectedError := none
          currentView := View.ViewConfig }).configInputs.length := by
      omega
    refine ⟨h2, ?_⟩
    have hv := (hspec i).2
    rw [List.get?_eq_get h2, List.get?_eq_get h1] at hv
    simp only [Option.map_some', Option.some.injEq] at hv
    rw [hv]
    have hcv : ({ m with
        selectedSkill := some man
        selectedError := none
        currentView := View.ViewConfig } : Model).configValues = m.configValues := rfl
    rw [hcv, hval]
    rfl

/-- The session state of the C10 witness: back at the skill list with a
previously saved secret value in the configuration map. -/
def c10StateA : Model :=
  { baseModel with manifests := [demoManifest],
                   configValues := [("API_TOKEN", "tok123")] }

/-- Witness for the C10 theorem: a `down`-key transition keeps the saved
binding, and re-selecting `demo` pre-fills the secret input with the saved
value. -/
theorem c10_configValues_global_witness :
    (∀ k, (mapLookup c10StateA.configValues k).isSome →
      (mapLookup ((Model.update emptyFs c10StateA (Msg.key "down")).getD
        (c10StateA, Cmd.none)).1.configValues k).isSome) ∧
    ∃ h2 : 0 < ((Model.update emptyFs c10StateA (Msg.key "enter")).getD
        (c10StateA, Cmd.none)).1.configInputs.length,
      ((((Model.update emptyFs c10StateA (Msg.key "enter")).getD
        (c10StateA, Cmd.none)).1.configInputs.get ⟨0, h2⟩)).value = "tok123" := by
  constructor
  · intro k hk
    exact c10_configValues_global.1 emptyFs c10StateA (Msg.key "down") _ _ rfl k hk
  · exact c10_configValues_global.2 emptyFs c10StateA demoManifest _ _ rfl (by decide)
      rfl 0 (by decide) "tok123" (by decide)
